import Mathlib

/-!
Verification of the multiview repository's two numerical engines against
their natural-language specification: the co-EM `KMeans` clustering engine
(`src/multiview/cluster/k_means.py`) and the kernel CCA engine
(`src/mvlearn/embed/kcca.py`).

The k-means code paths are embedded over an exact scalar type `Multiview.F`
(a rational, positive infinity, or not-a-number) with IEEE-754 comparison
semantics, so that every run of the embedded algorithm on concrete rational
inputs is decidable.  The kernel CCA code paths, whose data are real and
complex spectral quantities, are embedded over `ℝ` and `ℂ`.
-/

namespace Multiview

/-- IEEE-754-style scalar for the NumPy float computations in `k_means.py`:
a finite rational, `np.inf`, or `np.nan`.  Negative infinity never arises in
the embedded code paths (the only infinity is the initial objective
`np.inf`, and the only productions are sums, means, squares and square
roots of finite or nan data), so it is not represented. -/
inductive F where
  | nan : F
  | inf : F
  | fin : ℚ → F
deriving DecidableEq, Repr

/-- IEEE addition restricted to {finite, +inf, nan}: nan propagates,
`inf + x = inf` for non-nan `x`. -/
def F.add : F → F → F
  | .nan, _ => .nan
  | _, .nan => .nan
  | .inf, _ => .inf
  | _, .inf => .inf
  | .fin a, .fin b => .fin (a + b)

/-- IEEE subtraction on the values reachable in `k_means.py`
(`X - centers[cl]` with finite `X` and finite-or-nan centers):
nan propagates, `inf - inf = nan`.  `fin - inf` would be `-inf` in IEEE;
it is unreachable here (no negative infinity is ever produced) and is
mapped to nan. -/
def F.sub : F → F → F
  | .nan, _ => .nan
  | _, .nan => .nan
  | .inf, .inf => .nan
  | .inf, .fin _ => .inf
  | .fin _, .inf => .nan
  | .fin a, .fin b => .fin (a - b)

/-- IEEE multiplication on reachable values (used for squaring distance
entries, which are finite or nan): nan propagates, `inf * 0 = nan`,
`inf * q = inf` for `q > 0` (a negative factor, which would give `-inf`,
is unreachable and mapped to nan). -/
def F.mul : F → F → F
  | .nan, _ => .nan
  | _, .nan => .nan
  | .inf, .inf => .inf
  | .inf, .fin q => if q = 0 then .nan else if 0 < q then .inf else .nan
  | .fin q, .inf => if q = 0 then .nan else if 0 < q then .inf else .nan
  | .fin a, .fin b => .fin (a * b)

/-- IEEE division on reachable values.  The relevant zero-denominator case
is `np.mean` over an empty selection: `0.0 / 0 = nan`.  A nonzero
numerator over zero (which IEEE sends to a signed infinity) is mapped to
`inf`; it is unreachable in the embedded runs. -/
def F.div : F → F → F
  | .nan, _ => .nan
  | _, .nan => .nan
  | .inf, .inf => .nan
  | .inf, .fin _ => .inf
  | .fin _, .inf => .fin 0
  | .fin a, .fin b => if b = 0 then (if a = 0 then .nan else .inf) else .fin (a / b)

/-- IEEE `<`: any comparison with nan is false, `inf < inf` is false,
finite values compare as rationals. -/
def F.lt : F → F → Bool
  | .nan, _ => false
  | _, .nan => false
  | .inf, _ => false
  | .fin _, .inf => true
  | .fin a, .fin b => decide (a < b)

/-- IEEE `≤`: any comparison with nan is false. -/
def F.le : F → F → Bool
  | .nan, _ => false
  | _, .nan => false
  | _, .inf => true
  | .inf, .fin _ => false
  | .fin a, .fin b => decide (a ≤ b)

/-- Exact square root on perfect-square rationals: a non-negative rational
in lowest terms is a square iff its numerator and denominator are perfect
squares, and then `ratSqrt` returns the exact root.  On non-squares it
returns the rational built from the floor square roots.  Every concrete
input evaluated in a theorem below produces only perfect-square radicands,
and no universally quantified theorem below depends on the value of a
square root (they depend only on nan/inf propagation and on comparisons
between syntactically equal computations). -/
def ratSqrt (q : ℚ) : ℚ :=
  (Nat.sqrt q.num.toNat : ℚ) / (Nat.sqrt q.den : ℚ)

/-- IEEE square root: nan propagates, `sqrt inf = inf`, a negative finite
radicand gives nan. -/
def F.sqrt : F → F
  | .nan => .nan
  | .inf => .inf
  | .fin q => if q < 0 then .nan else .fin (ratSqrt q)

/-- `np.sum` over a 1-D float array (empty sum is `0.0`). -/
def sumF (l : List F) : F := l.foldr F.add (.fin 0)

/-- `np.linalg.norm` of a float vector: the square root of the sum of
squares. -/
def normF (v : List F) : F := F.sqrt (sumF (v.map (fun x => x.mul x)))

/-- `x.isNan` decides whether `x` is the nan value. -/
def F.isNan : F → Bool
  | .nan => true
  | _ => false

/-- Index of the first nan entry of a float list, if any.  NumPy's
`argmin` scan (`if (!(v >= best)) { best = v; idx = i; if isnan(best) break; }`)
returns this index whenever a nan is present. -/
def firstNanIdx : List F → Option ℕ
  | [] => none
  | x :: xs => if x.isNan then some 0 else (firstNanIdx xs).map (· + 1)

/-- Scan of a nan-free tail keeping the current best value and its index:
an entry strictly below the current best replaces it, so the first
occurrence of the minimum wins, exactly as in NumPy's `argmin`. -/
def minIdxAux : List F → F → ℕ → ℕ → ℕ
  | [], _, _, best => best
  | x :: xs, cur, i, best =>
    if x.lt cur then minIdxAux xs x (i + 1) i else minIdxAux xs cur (i + 1) best

/-- `np.argmin` of a 1-D float array: the index of the first nan if one is
present, otherwise the first index attaining the minimum.  The empty list
(unreachable: `np.argmin` of an empty array raises) is mapped to `0`. -/
def argminF (l : List F) : ℕ :=
  match firstNanIdx l with
  | some i => i
  | none =>
    match l with
    | [] => 0
    | x :: xs => minIdxAux xs x 1 0

/-- A raw input view: a matrix of finite rationals, as a list of sample
rows. -/
abbrev MatQ := List (List ℚ)

/-- A float matrix appearing inside the algorithm (centroids, distances),
as a list of rows. -/
abbrev MatF := List (List F)

/-- Lift an input row into float scalars. -/
def liftRow (r : List ℚ) : List F := r.map F.fin

/-- Feature count of a view, read off its first row (NumPy keeps the
width in the array's shape; a list of rows keeps it in the rows). -/
def width (X : MatQ) : ℕ := (X.headD []).length

/-- `row - center` entrywise (NumPy broadcasting of equal-length rows). -/
def rowSub (r : List ℚ) (c : List F) : List F :=
  List.zipWith (fun a b => (F.fin a).sub b) r c

/-- Column `i` of a row-major float matrix. -/
def column (m : MatF) (i : ℕ) : List F := m.map (fun r => r.getD i F.nan)

/-- Elementwise sum of two float matrices. -/
def matAdd (a b : MatF) : MatF := List.zipWith (List.zipWith F.add) a b

/-- Python-level failures surfaced by the embedded operations. -/
inductive PyErr where
  /-- `TypeError: 'NoneType' object is not subscriptable` — e.g.
  `self._centroids[0]` when `_centroids` is still `None`. -/
  | typeError : PyErr
  /-- `NameError("kCCA has not been trained.")`. -/
  | notTrained : PyErr
  /-- `UnboundLocalError`/`NameError` for `R`/`D` at `linalg.eig(R, D)`
  when the `decomp`/`method` branches were skipped. -/
  | unboundRD : PyErr
  /-- A `ValueError` raised by `KCCA.__init__` with the given message. -/
  | valueError : String → PyErr
deriving DecidableEq, Repr

namespace KMeans

/-- `KMeans._compute_distance(X, centers)` (`k_means.py` lines 60-88):
for each cluster index `cl` in `[0, k)`, the row of Euclidean distances
`‖X[i] - centers[cl]‖` over all samples `i`; the `k` rows are stacked. -/
def computeDistance (k : ℕ) (X : MatQ) (centers : MatF) : MatF :=
  (List.range k).map (fun cl => X.map (fun row => normF (rowSub row (centers.getD cl []))))

/-- `np.argmin(distances, axis=0).flatten()`: the per-sample (per-column)
argmin over the `k` stacked distance rows. -/
def argminAxis0 (dists : MatF) (n : ℕ) : List ℕ :=
  (List.range n).map (fun i => argminF (column dists i))

/-- Model of `np.random.choice(n, k)` (`k_means.py` line 114): `k`
independent uniform draws from `[0, n)` **with replacement** (`replace`
defaults to `True`, so repeated indices are possible outcomes).  The
external NumPy generator is modelled by an oracle enumerating the draws;
taking the oracle values modulo `n` realises exactly the possible
outcomes: every length-`k` sequence over `[0, n)` arises from some
oracle, and nothing else arises. -/
def npChoice (n k : ℕ) (oracle : ℕ → ℕ) : List ℕ :=
  (List.range k).map (fun i => oracle i % n)

/-- `centers = Xs[1][indices]` (`k_means.py` line 115): the initial
view-2 centroids are the sampled rows themselves. -/
def initCenters (X1 : MatQ) (k : ℕ) (oracle : ℕ → ℕ) : MatQ :=
  (npChoice X1.length k oracle).map (fun i => X1.getD i [])

/-- Rows of `X` selected by the boolean mask `partition == cl`
(`Xs[view][mask]` with a genuine integer partition). -/
def selectRows (X : MatQ) (p : List ℕ) (cl : ℕ) : MatQ :=
  (X.zip p).filterMap (fun rc => if rc.2 = cl then some rc.1 else none)

/-- `np.mean(rows, axis=0)` over `w`-wide rational rows: column sums
divided by the row count.  An empty selection divides `0.0` by `0`,
which is nan in every entry — the unguarded empty-cluster mean. -/
def meanRows (w : ℕ) (rows : MatQ) : List F :=
  (List.range w).map (fun j =>
    (F.fin ((rows.map (fun r => r.getD j 0)).sum)).div (F.fin (rows.length : ℚ)))

/-- One M-step contribution for cluster `cl` (`k_means.py` lines 133-136):
`mask = (partitions[other] == cl); cent = np.mean(Xs[view][mask], axis=0)`.

With a genuine partition the mask selects rows and the contribution is a
single mean row (shape `(f,)`).  When the other view's partition is still
`None` — which the dead E-step makes permanent for view 0 — Python
evaluates `None == cl` to the scalar `False`, so `Xs[view][False]` has
shape `(0, n, f)` and its mean over axis 0 is an `(n, f)` block of nan. -/
def mStepSel (X : MatQ) (part : Option (List ℕ)) (cl : ℕ) : MatF :=
  match part with
  | some p => [meanRows (width X) (selectRows X p cl)]
  | none => X.map (fun _ => List.replicate (width X) F.nan)

/-- The full M-step `np.vstack(new_centers)` (`k_means.py` lines 132-137). -/
def mStep (k : ℕ) (X : MatQ) (part : Option (List ℕ)) : MatF :=
  ((List.range k).map (mStepSel X part)).flatten

/-- The objective recomputation (`k_means.py` lines 143-147): the sum over
clusters of the distances from each sample assigned to the cluster *in the
current stored partition* to the cluster's just-updated centroid.  A `None`
partition (`partitions[view] == clust` is the scalar `False`) selects an
empty array for every cluster, and each `np.sum` over it is `0.0`. -/
def oFunct (k : ℕ) (X : MatQ) (part : Option (List ℕ)) (cents : MatF) : F :=
  match part with
  | some p =>
    sumF ((List.range k).map (fun cl =>
      sumF ((selectRows X p cl).map (fun r => normF (rowSub r (cents.getD cl []))))))
  | none => sumF ((List.range k).map (fun _ => F.fin 0))

/-- The mutable state of `KMeans.fit`'s EM loop: `self._centroids`
(entries `None` until first written), the `partitions` list (whose view-0
entry is initialised to `None` and — since the recomputed E-step result is
never stored — stays `None`), the per-view best objectives, the stall
counter and the iteration counter. -/
structure KState where
  cent0 : Option MatF
  cent1 : Option MatF
  part0 : Option (List ℕ)
  part1 : Option (List ℕ)
  obj0 : F
  obj1 : F
  stall : ℕ
  iter : ℕ
deriving DecidableEq, Repr

/-- One iteration of the EM loop body (`k_means.py` lines 127-154):
`view = (iter_num + 1) % 2`; M-step from the *other* view's stored
partition; E-step recomputation of `new_partitions` (computed and, as in
the source, never stored anywhere); objective recomputation; stall
bookkeeping. -/
def step (k : ℕ) (X0 X1 : MatQ) (s : KState) : KState :=
  let iter' := s.iter + 1
  if (iter' + 1) % 2 = 0 then
    let newC := mStep k X0 s.part1
    let _newPartitions := argminAxis0 (computeDistance k X0 newC) X0.length
    let o := oFunct k X0 s.part0 newC
    if o.lt s.obj0 then
      { s with cent0 := some newC, obj0 := o, stall := 0, iter := iter' }
    else
      { s with cent0 := some newC, stall := s.stall + 1, iter := iter' }
  else
    let newC := mStep k X1 s.part0
    let _newPartitions := argminAxis0 (computeDistance k X1 newC) X1.length
    let o := oFunct k X1 s.part1 newC
    if o.lt s.obj1 then
      { s with cent1 := some newC, obj1 := o, stall := 0, iter := iter' }
    else
      { s with cent1 := some newC, stall := s.stall + 1, iter := iter' }

/-- `iter_num < self._max_iter`, where `none` models `np.inf`. -/
def iterLt (i : ℕ) (m : Option ℕ) : Prop :=
  match m with
  | none => True
  | some M => i < M

instance instDecIterLt (i : ℕ) (m : Option ℕ) : Decidable (iterLt i m) :=
  match m with
  | none => .isTrue trivial
  | some M => Nat.decLt i M

/-- `self._max_iter = max_iter; if not max_iter: self._max_iter = np.inf`
(`k_means.py` lines 53-55): both `None` and `0` are falsy, so both give an
unbounded iteration budget. -/
def effMaxIter (m : Option ℕ) : Option ℕ :=
  match m with
  | none => none
  | some 0 => none
  | some v => some v

/-- The `while(iter_stall < patience and iter_num < self._max_iter)` loop,
written with explicit fuel.  `fitState` runs it with fuel `patience + 3`,
and `fit_loop_guard_false`-style lemmas below prove the loop guard is
already false at that point, so (by `loopFit_add` and `loopFit_exit`) any
larger fuel produces the same state: the fuelled function coincides with
the unbounded while loop. -/
def loopFit (k : ℕ) (X0 X1 : MatQ) (patience : ℕ) (m : Option ℕ) : ℕ → KState → KState
  | 0, s => s
  | fuel + 1, s =>
    if s.stall < patience ∧ iterLt s.iter m then
      loopFit k X0 X1 patience m fuel (step k X0 X1 s)
    else s

/-- Configuration of a `KMeans` instance (`__init__`, lines 46-55):
`_k`, `_random_state` (stored and, as the code stands, never read again),
and `_max_iter`. -/
structure Cfg where
  k : ℕ
  randomState : Option ℤ := none
  maxIter : Option ℕ := none

/-- The state set up by `fit` before its loop (`k_means.py` lines 114-124):
random initial centroids for view 2 from the global generator, the initial
nearest-centroid partition of view 2, `_centroids = [None, centers]`,
`partitions = [None, parts]`, objectives `[inf, inf]`, counters zero. -/
def initState (cfg : Cfg) (X1 : MatQ) (oracle : ℕ → ℕ) : KState :=
  let centers := (initCenters X1 cfg.k oracle).map liftRow
  let parts := argminAxis0 (computeDistance cfg.k X1 centers) X1.length
  { cent0 := none, cent1 := some centers, part0 := none, part1 := some parts,
    obj0 := .inf, obj1 := .inf, stall := 0, iter := 0 }

/-- The loop state at the end of `KMeans.fit(Xs, patience)`. -/
def fitState (cfg : Cfg) (X0 X1 : MatQ) (patience : ℕ) (oracle : ℕ → ℕ) : KState :=
  loopFit cfg.k X0 X1 patience (effMaxIter cfg.maxIter) (patience + 3)
    (initState cfg X1 oracle)

/-- The `_centroids` attribute after `fit`. -/
def fitModel (cfg : Cfg) (X0 X1 : MatQ) (patience : ℕ) (oracle : ℕ → ℕ) :
    Option MatF × Option MatF :=
  let s := fitState cfg X0 X1 patience oracle
  (s.cent0, s.cent1)

/-- Rows of `X` selected by the mask
`(v1_partitions == clust) * (v2_partitions == clust)` — the logical AND of
the two views' membership masks (`k_means.py` line 190). -/
def selectRows2 (X : MatQ) (p q : List ℕ) (cl : ℕ) : MatQ :=
  ((X.zip p).zip q).filterMap
    (fun rpq => if rpq.1.2 = cl ∧ rpq.2 = cl then some rpq.1.1 else none)

/-- The consensus centroids of `KMeans.predict` (`k_means.py` lines
180-199) for one view: for each cluster, the mean of the samples on which
both views' independent nearest-centroid partitions agree on that
cluster. -/
def consensus (k : ℕ) (X : MatQ) (p q : List ℕ) : MatF :=
  (List.range k).map (fun cl => meanRows (width X) (selectRows2 X p q cl))

/-- The decision matrix of `KMeans.predict` (`k_means.py` lines 200-202):
`dist1 + dist2`, distances of each view to its consensus centroids. -/
def predictMetric (k : ℕ) (X0 X1 : MatQ) (c0 c1 : MatF) : MatF :=
  let v1p := argminAxis0 (computeDistance k X0 c0) X0.length
  let v2p := argminAxis0 (computeDistance k X1 c1) X1.length
  matAdd (computeDistance k X0 (consensus k X0 v1p v2p))
         (computeDistance k X1 (consensus k X1 v1p v2p))

/-- `KMeans.predict(Xs)` (`k_means.py` lines 158-205).  There is no
fitted-state guard in the source: with `_centroids` still `None`,
`self._centroids[0]` raises `TypeError` (`'NoneType' object is not
subscriptable`) before any computation; the same subscripting failure
occurs inside `_compute_distance` if an entry of `_centroids` is `None`.
Otherwise: both views' independent partitions, consensus centroids,
and the joint argmin of `dist1 + dist2` per sample. -/
def predictE (k : ℕ) (model : Option (Option MatF × Option MatF)) (X0 X1 : MatQ) :
    Except PyErr (List ℕ) :=
  match model with
  | none => .error .typeError
  | some (none, _) => .error .typeError
  | some (_, none) => .error .typeError
  | some (some c0, some c1) =>
    .ok (argminAxis0 (predictMetric k X0 X1 c0 c1) X0.length)

/-- `KMeans.fit_predict(Xs, patience)` (`k_means.py` lines 207-232): the
body is `self.fit(Xs)` — the `patience` argument is accepted and *not*
forwarded, so the fit runs with the default `patience=5` — followed by
`self.predict(Xs)`. -/
def fitPredictE (cfg : Cfg) (X0 X1 : MatQ) (patience : ℕ) (oracle : ℕ → ℕ) :
    Except PyErr (List ℕ) :=
  let _ := patience
  let m := fitModel cfg X0 X1 5 oracle
  predictE cfg.k (some m) X0 X1

end KMeans

/-! ### Evaluation helpers

Rational square roots of the perfect-square radicands that occur in the
concrete runs below, and single-stepping lemmas for the fuelled loop. -/

theorem ratSqrt_eval {q : ℚ} {a b : ℕ} (hnum : q.num = (a : ℤ) * a) (hden : q.den = b * b) :
    ratSqrt q = (a : ℚ) / b := by
  unfold ratSqrt
  rw [hnum, hden]
  have h1 : ((a : ℤ) * a) = ((a * a : ℕ) : ℤ) := by push_cast; ring
  rw [h1, Int.toNat_natCast, Nat.sqrt_eq, Nat.sqrt_eq]

theorem ratSqrt0 : ratSqrt 0 = 0 := by
  rw [ratSqrt_eval (a := 0) (b := 1) (by norm_num) (by norm_num)]; norm_num

theorem ratSqrt1 : ratSqrt 1 = 1 := by
  rw [ratSqrt_eval (a := 1) (b := 1) (by norm_num) (by norm_num)]; norm_num

theorem ratSqrt4 : ratSqrt 4 = 2 := by
  rw [ratSqrt_eval (a := 2) (b := 1) (by norm_num) (by norm_num)]; norm_num

theorem ratSqrt100 : ratSqrt 100 = 10 := by
  rw [ratSqrt_eval (a := 10) (b := 1) (by norm_num) (by norm_num)]; norm_num

theorem ratSqrt144 : ratSqrt 144 = 12 := by
  rw [ratSqrt_eval (a := 12) (b := 1) (by norm_num) (by norm_num)]; norm_num

namespace KMeans

/-- Abbreviated `KState` literal for the runs below: `part0` is always
`None`, as the source initialises it and (the E-step result being
discarded) never overwrites it. -/
def mkState (c0 c1 : Option MatF) (p1 : List ℕ) (o0 o1 : F) (stall iter : ℕ) : KState :=
  { cent0 := c0, cent1 := c1, part0 := none, part1 := some p1,
    obj0 := o0, obj1 := o1, stall := stall, iter := iter }

theorem loopFit_enter {k : ℕ} {X0 X1 : MatQ} {p : ℕ} {m : Option ℕ} {s s' : KState}
    (h : s.stall < p ∧ iterLt s.iter m) (hs : step k X0 X1 s = s') (f : ℕ) :
    loopFit k X0 X1 p m (f + 1) s = loopFit k X0 X1 p m f s' := by
  rw [loopFit, if_pos h, hs]

theorem loopFit_of_not_guard {k : ℕ} {X0 X1 : MatQ} {p : ℕ} {m : Option ℕ} {s : KState}
    (h : ¬(s.stall < p ∧ iterLt s.iter m)) : ∀ f, loopFit k X0 X1 p m f s = s := by
  intro f
  cases f with
  | zero => rfl
  | succ f => rw [loopFit, if_neg h]


/-- Full evaluation of the embedded `fit` on the two-view input
`Xs = ([[0],[2]], [[0],[10]])` with `k = 2`, `patience = 5` and the
global-generator oracle `(fun i => i)`. -/
theorem fit_run_id_oracle :
    fitState { k := 2 } [[0],[2]] [[0],[10]] 5 (fun i => i) =
      mkState (some [[F.fin 0],[F.fin 2]]) (some [[F.nan],[F.nan],[F.nan],[F.nan]])
        [0,1] (F.fin 0) F.inf 5 6 := by
  have h0 : initState { k := 2 } [[0],[10]] (fun i => i) =
      mkState none (some [[F.fin 0],[F.fin 10]]) [0,1] F.inf F.inf 0 0 := by
    norm_num [initState, mkState, initCenters, npChoice, computeDistance, argminAxis0,
      argminF, firstNanIdx, minIdxAux, column, rowSub, liftRow, width, normF, sumF,
      F.add, F.sub, F.mul, F.sqrt, F.lt, F.isNan, List.range_succ,
      ratSqrt0, ratSqrt100, List.filterMap_cons, List.filterMap_nil,
      List.getD_cons_zero, List.getD_cons_succ, List.sum_cons, List.sum_nil]
  have h1 : step 2 [[0],[2]] [[0],[10]]
      (mkState none (some [[F.fin 0],[F.fin 10]]) [0,1] F.inf F.inf 0 0) =
      mkState (some [[F.fin 0],[F.fin 2]]) (some [[F.fin 0],[F.fin 10]]) [0,1]
        (F.fin 0) F.inf 0 1 := by
    norm_num [step, mkState, mStep, mStepSel, meanRows, selectRows, oFunct,
      computeDistance, argminAxis0, argminF, firstNanIdx, minIdxAux, column, rowSub,
      liftRow, width, normF, sumF, F.add, F.sub, F.mul, F.div, F.sqrt, F.lt, F.isNan,
      List.range_succ, ratSqrt0, ratSqrt4, ratSqrt100, List.filterMap_cons,
      List.filterMap_nil, List.getD_cons_zero, List.getD_cons_succ, List.sum_cons,
      List.sum_nil]
  have h2 : step 2 [[0],[2]] [[0],[10]]
      (mkState (some [[F.fin 0],[F.fin 2]]) (some [[F.fin 0],[F.fin 10]]) [0,1]
        (F.fin 0) F.inf 0 1) =
      mkState (some [[F.fin 0],[F.fin 2]]) (some [[F.nan],[F.nan],[F.nan],[F.nan]]) [0,1]
        (F.fin 0) F.inf 1 2 := by
    norm_num [step, mkState, mStep, mStepSel, meanRows, selectRows, oFunct,
      computeDistance, argminAxis0, argminF, firstNanIdx, minIdxAux, column, rowSub,
      liftRow, width, normF, sumF, F.add, F.sub, F.mul, F.div, F.sqrt, F.lt, F.isNan,
      List.range_succ, ratSqrt0, ratSqrt4, ratSqrt100, List.filterMap_cons,
      List.filterMap_nil, List.getD_cons_zero, List.getD_cons_succ, List.sum_cons,
      List.sum_nil]
  have h3 : step 2 [[0],[2]] [[0],[10]]
      (mkState (some [[F.fin 0],[F.fin 2]]) (some [[F.nan],[F.nan],[F.nan],[F.nan]]) [0,1]
        (F.fin 0) F.inf 1 2) =
      mkState (some [[F.fin 0],[F.fin 2]]) (some [[F.nan],[F.nan],[F.nan],[F.nan]]) [0,1]
        (F.fin 0) F.inf 2 3 := by
    norm_num [step, mkState, mStep, mStepSel, meanRows, selectRows, oFunct,
      computeDistance, argminAxis0, argminF, firstNanIdx, minIdxAux, column, rowSub,
      liftRow, width, normF, sumF, F.add, F.sub, F.mul, F.div, F.sqrt, F.lt, F.isNan,
      List.range_succ, ratSqrt0, ratSqrt4, ratSqrt100, List.filterMap_cons,
      List.filterMap_nil, List.getD_cons_zero, List.getD_cons_succ, List.sum_cons,
      List.sum_nil]
  have h4 : step 2 [[0],[2]] [[0],[10]]
      (mkState (some [[F.fin 0],[F.fin 2]]) (some [[F.nan],[F.nan],[F.nan],[F.nan]]) [0,1]
        (F.fin 0) F.inf 2 3) =
      mkState (some [[F.fin 0],[F.fin 2]]) (some [[F.nan],[F.nan],[F.nan],[F.nan]]) [0,1]
        (F.fin 0) F.inf 3 4 := by
    norm_num [step, mkState, mStep, mStepSel, meanRows, selectRows, oFunct,
      computeDistance, argminAxis0, argminF, firstNanIdx, minIdxAux, column, rowSub,
      liftRow, width, normF, sumF, F.add, F.sub, F.mul, F.div, F.sqrt, F.lt, F.isNan,
      List.range_succ, ratSqrt0, ratSqrt4, ratSqrt100, List.filterMap_cons,
      List.filterMap_nil, List.getD_cons_zero, List.getD_cons_succ, List.sum_cons,
      List.sum_nil]
  have h5 : step 2 [[0],[2]] [[0],[10]]
      (mkState (some [[F.fin 0],[F.fin 2]]) (some [[F.nan],[F.nan],[F.nan],[F.nan]]) [0,1]
        (F.fin 0) F.inf 3 4) =
      mkState (some [[F.fin 0],[F.fin 2]]) (some [[F.nan],[F.nan],[F.nan],[F.nan]]) [0,1]
        (F.fin 0) F.inf 4 5 := by
    norm_num [step, mkState, mStep, mStepSel, meanRows, selectRows, oFunct,
      computeDistance, argminAxis0, argminF, firstNanIdx, minIdxAux, column, rowSub,
      liftRow, width, normF, sumF, F.add, F.sub, F.mul, F.div, F.sqrt, F.lt, F.isNan,
      List.range_succ, ratSqrt0, ratSqrt4, ratSqrt100, List.filterMap_cons,
      List.filterMap_nil, List.getD_cons_zero, List.getD_cons_succ, List.sum_cons,
      List.sum_nil]
  have h6 : step 2 [[0],[2]] [[0],[10]]
      (mkState (some [[F.fin 0],[F.fin 2]]) (some [[F.nan],[F.nan],[F.nan],[F.nan]]) [0,1]
        (F.fin 0) F.inf 4 5) =
      mkState (some [[F.fin 0],[F.fin 2]]) (some [[F.nan],[F.nan],[F.nan],[F.nan]]) [0,1]
        (F.fin 0) F.inf 5 6 := by
    norm_num [step, mkState, mStep, mStepSel, meanRows, selectRows, oFunct,
      computeDistance, argminAxis0, argminF, firstNanIdx, minIdxAux, column, rowSub,
      liftRow, width, normF, sumF, F.add, F.sub, F.mul, F.div, F.sqrt, F.lt, F.isNan,
      List.range_succ, ratSqrt0, ratSqrt4, ratSqrt100, List.filterMap_cons,
      List.filterMap_nil, List.getD_cons_zero, List.getD_cons_succ, List.sum_cons,
      List.sum_nil]
  unfold fitState
  rw [h0, show effMaxIter ({ k := 2 : Cfg}).maxIter = none from rfl,
    show ((5:ℕ)+3) = 8 from rfl]
  rw [loopFit_enter (f := 7) (by exact ⟨by norm_num [mkState], trivial⟩) h1]
  rw [loopFit_enter (f := 6) (by exact ⟨by norm_num [mkState], trivial⟩) h2]
  rw [loopFit_enter (f := 5) (by exact ⟨by norm_num [mkState], trivial⟩) h3]
  rw [loopFit_enter (f := 4) (by exact ⟨by norm_num [mkState], trivial⟩) h4]
  rw [loopFit_enter (f := 3) (by exact ⟨by norm_num [mkState], trivial⟩) h5]
  rw [loopFit_enter (f := 2) (by exact ⟨by norm_num [mkState], trivial⟩) h6]
  exact loopFit_of_not_guard (by simp [mkState]) 2

/-- Full evaluation of the embedded `fit` on the two-view input
`Xs = ([[0],[2]], [[0],[10]])` with `k = 2`, `patience = 5` and the
global-generator oracle `(fun _ => 0)`. -/
theorem fit_run_zero_oracle :
    fitState { k := 2 } [[0],[2]] [[0],[10]] 5 (fun _ => 0) =
      mkState (some [[F.fin 1],[F.nan]]) (some [[F.nan],[F.nan],[F.nan],[F.nan]])
        [0,0] (F.fin 0) F.inf 5 6 := by
  have h0 : initState { k := 2 } [[0],[10]] (fun _ => 0) =
      mkState none (some [[F.fin 0],[F.fin 0]]) [0,0] F.inf F.inf 0 0 := by
    norm_num [initState, mkState, initCenters, npChoice, computeDistance, argminAxis0,
      argminF, firstNanIdx, minIdxAux, column, rowSub, liftRow, width, normF, sumF,
      F.add, F.sub, F.mul, F.sqrt, F.lt, F.isNan, List.range_succ,
      ratSqrt0, ratSqrt100, List.filterMap_cons, List.filterMap_nil,
      List.getD_cons_zero, List.getD_cons_succ, List.sum_cons, List.sum_nil]
  have h1 : step 2 [[0],[2]] [[0],[10]]
      (mkState none (some [[F.fin 0],[F.fin 0]]) [0,0] F.inf F.inf 0 0) =
      mkState (some [[F.fin 1],[F.nan]]) (some [[F.fin 0],[F.fin 0]]) [0,0]
        (F.fin 0) F.inf 0 1 := by
    norm_num [step, mkState, mStep, mStepSel, meanRows, selectRows, oFunct,
      computeDistance, argminAxis0, argminF, firstNanIdx, minIdxAux, column, rowSub,
      liftRow, width, normF, sumF, F.add, F.sub, F.mul, F.div, F.sqrt, F.lt, F.isNan,
      List.range_succ, ratSqrt0, ratSqrt4, ratSqrt100, List.filterMap_cons,
      List.filterMap_nil, List.getD_cons_zero, List.getD_cons_succ, List.sum_cons,
      List.sum_nil]
  have h2 : step 2 [[0],[2]] [[0],[10]]
      (mkState (some [[F.fin 1],[F.nan]]) (some [[F.fin 0],[F.fin 0]]) [0,0]
        (F.fin 0) F.inf 0 1) =
      mkState (some [[F.fin 1],[F.nan]]) (some [[F.nan],[F.nan],[F.nan],[F.nan]]) [0,0]
        (F.fin 0) F.inf 1 2 := by
    norm_num [step, mkState, mStep, mStepSel, meanRows, selectRows, oFunct,
      computeDistance, argminAxis0, argminF, firstNanIdx, minIdxAux, column, rowSub,
      liftRow, width, normF, sumF, F.add, F.sub, F.mul, F.div, F.sqrt, F.lt, F.isNan,
      List.range_succ, ratSqrt0, ratSqrt4, ratSqrt100, List.filterMap_cons,
      List.filterMap_nil, List.getD_cons_zero, List.getD_cons_succ, List.sum_cons,
      List.sum_nil]
  have h3 : step 2 [[0],[2]] [[0],[10]]
      (mkState (some [[F.fin 1],[F.nan]]) (some [[F.nan],[F.nan],[F.nan],[F.nan]]) [0,0]
        (F.fin 0) F.inf 1 2) =
      mkState (some [[F.fin 1],[F.nan]]) (some [[F.nan],[F.nan],[F.nan],[F.nan]]) [0,0]
        (F.fin 0) F.inf 2 3 := by
    norm_num [step, mkState, mStep, mStepSel, meanRows, selectRows, oFunct,
      computeDistance, argminAxis0, argminF, firstNanIdx, minIdxAux, column, rowSub,
      liftRow, width, normF, sumF, F.add, F.sub, F.mul, F.div, F.sqrt, F.lt, F.isNan,
      List.range_succ, ratSqrt0, ratSqrt4, ratSqrt100, List.filterMap_cons,
      List.filterMap_nil, List.getD_cons_zero, List.getD_cons_succ, List.sum_cons,
      List.sum_nil]
  have h4 : step 2 [[0],[2]] [[0],[10]]
      (mkState (some [[F.fin 1],[F.nan]]) (some [[F.nan],[F.nan],[F.nan],[F.nan]]) [0,0]
        (F.fin 0) F.inf 2 3) =
      mkState (some [[F.fin 1],[F.nan]]) (some [[F.nan],[F.nan],[F.nan],[F.nan]]) [0,0]
        (F.fin 0) F.inf 3 4 := by
    norm_num [step, mkState, mStep, mStepSel, meanRows, selectRows, oFunct,
      computeDistance, argminAxis0, argminF, firstNanIdx, minIdxAux, column, rowSub,
      liftRow, width, normF, sumF, F.add, F.sub, F.mul, F.div, F.sqrt, F.lt, F.isNan,
      List.range_succ, ratSqrt0, ratSqrt4, ratSqrt100, List.filterMap_cons,
      List.filterMap_nil, List.getD_cons_zero, List.getD_cons_succ, List.sum_cons,
      List.sum_nil]
  have h5 : step 2 [[0],[2]] [[0],[10]]
      (mkState (some [[F.fin 1],[F.nan]]) (some [[F.nan],[F.nan],[F.nan],[F.nan]]) [0,0]
        (F.fin 0) F.inf 3 4) =
      mkState (some [[F.fin 1],[F.nan]]) (some [[F.nan],[F.nan],[F.nan],[F.nan]]) [0,0]
        (F.fin 0) F.inf 4 5 := by
    norm_num [step, mkState, mStep, mStepSel, meanRows, selectRows, oFunct,
      computeDistance, argminAxis0, argminF, firstNanIdx, minIdxAux, column, rowSub,
      liftRow, width, normF, sumF, F.add, F.sub, F.mul, F.div, F.sqrt, F.lt, F.isNan,
      List.range_succ, ratSqrt0, ratSqrt4, ratSqrt100, List.filterMap_cons,
      List.filterMap_nil, List.getD_cons_zero, List.getD_cons_succ, List.sum_cons,
      List.sum_nil]
  have h6 : step 2 [[0],[2]] [[0],[10]]
      (mkState (some [[F.fin 1],[F.nan]]) (some [[F.nan],[F.nan],[F.nan],[F.nan]]) [0,0]
        (F.fin 0) F.inf 4 5) =
      mkState (some [[F.fin 1],[F.nan]]) (some [[F.nan],[F.nan],[F.nan],[F.nan]]) [0,0]
        (F.fin 0) F.inf 5 6 := by
    norm_num [step, mkState, mStep, mStepSel, meanRows, selectRows, oFunct,
      computeDistance, argminAxis0, argminF, firstNanIdx, minIdxAux, column, rowSub,
      liftRow, width, normF, sumF, F.add, F.sub, F.mul, F.div, F.sqrt, F.lt, F.isNan,
      List.range_succ, ratSqrt0, ratSqrt4, ratSqrt100, List.filterMap_cons,
      List.filterMap_nil, List.getD_cons_zero, List.getD_cons_succ, List.sum_cons,
      List.sum_nil]
  unfold fitState
  rw [h0, show effMaxIter ({ k := 2 : Cfg}).maxIter = none from rfl,
    show ((5:ℕ)+3) = 8 from rfl]
  rw [loopFit_enter (f := 7) (by exact ⟨by norm_num [mkState], trivial⟩) h1]
  rw [loopFit_enter (f := 6) (by exact ⟨by norm_num [mkState], trivial⟩) h2]
  rw [loopFit_enter (f := 5) (by exact ⟨by norm_num [mkState], trivial⟩) h3]
  rw [loopFit_enter (f := 4) (by exact ⟨by norm_num [mkState], trivial⟩) h4]
  rw [loopFit_enter (f := 3) (by exact ⟨by norm_num [mkState], trivial⟩) h5]
  rw [loopFit_enter (f := 2) (by exact ⟨by norm_num [mkState], trivial⟩) h6]
  exact loopFit_of_not_guard (by simp [mkState]) 2

/-- Evaluation of the predict decision matrix on the centroids produced by
`fit_run_id_oracle`: view 2's fitted centroids are all-nan, so its
nearest-centroid partition is all zeros, cluster 1's consensus mask is
empty, and the cluster-1 row of `dist1 + dist2` is nan. -/
theorem predict_metric_run_id :
    predictMetric 2 [[0],[2]] [[0],[10]] [[F.fin 0],[F.fin 2]]
      [[F.nan],[F.nan],[F.nan],[F.nan]] =
      [[F.fin 0, F.fin 12],[F.nan, F.nan]] := by
  norm_num [predictMetric, consensus, selectRows2, matAdd, meanRows, selectRows,
    computeDistance, argminAxis0, argminF, firstNanIdx, minIdxAux, column, rowSub,
    liftRow, width, normF, sumF, F.add, F.sub, F.mul, F.div, F.sqrt, F.lt, F.isNan,
    List.range_succ, ratSqrt0, ratSqrt4, ratSqrt100, ratSqrt144, List.filterMap_cons,
    List.filterMap_nil, List.getD_cons_zero, List.getD_cons_succ, List.sum_cons,
    List.sum_nil]

end KMeans


/-! ### Structural facts about the embedded EM loop -/

theorem F.lt_irrefl (x : F) : x.lt x = false := by
  cases x <;> simp [F.lt]

theorem sumF_zeros (n : ℕ) : sumF ((List.range n).map (fun _ => F.fin 0)) = F.fin 0 := by
  induction n with
  | zero => rfl
  | succ n ih =>
    rw [List.range_succ, List.map_append, List.map_cons, List.map_nil]
    unfold sumF at ih ⊢
    rw [List.foldr_append]
    simpa [F.add] using ih

namespace KMeans

/-- With a `None` partition every per-cluster selection is empty and every
`np.sum` contributes `0.0`. -/
theorem oFunct_none (k : ℕ) (X : MatQ) (c : MatF) : oFunct k X none c = F.fin 0 := by
  unfold oFunct
  exact sumF_zeros k

/-- The loop body never writes `partitions`: the E-step result
`new_partitions` is computed and dropped (`k_means.py` lines 139-140 have
no corresponding store). -/
theorem step_parts (k : ℕ) (X0 X1 : MatQ) (s : KState) :
    (step k X0 X1 s).part0 = s.part0 ∧ (step k X0 X1 s).part1 = s.part1 := by
  unfold step
  dsimp only
  split <;> split <;> simp

theorem step_stall (k : ℕ) (X0 X1 : MatQ) (s : KState) :
    (step k X0 X1 s).stall = 0 ∨ (step k X0 X1 s).stall = s.stall + 1 := by
  unfold step
  dsimp only
  split <;> split <;> simp

/-- A recorded best objective is only ever replaced by a strictly smaller
(IEEE `<`) value. -/
theorem step_obj (k : ℕ) (X0 X1 : MatQ) (s : KState) :
    ((step k X0 X1 s).obj0 = s.obj0 ∨ ((step k X0 X1 s).obj0).lt s.obj0 = true) ∧
    ((step k X0 X1 s).obj1 = s.obj1 ∨ ((step k X0 X1 s).obj1).lt s.obj1 = true) := by
  unfold step
  dsimp only
  constructor <;> [skip; skip] <;> split <;> rename_i hpar <;> split <;>
    rename_i hlt <;> simp_all

theorem loopFit_parts (k : ℕ) (X0 X1 : MatQ) (p : ℕ) (m : Option ℕ) :
    ∀ f (s : KState), (loopFit k X0 X1 p m f s).part0 = s.part0 ∧
      (loopFit k X0 X1 p m f s).part1 = s.part1 := by
  intro f
  induction f with
  | zero => intro s; exact ⟨rfl, rfl⟩
  | succ f ih =>
    intro s
    rw [loopFit]
    by_cases hg : s.stall < p ∧ iterLt s.iter m
    · rw [if_pos hg]
      obtain ⟨h0, h1⟩ := ih (step k X0 X1 s)
      obtain ⟨g0, g1⟩ := step_parts k X0 X1 s
      exact ⟨h0.trans g0, h1.trans g1⟩
    · rw [if_neg hg]
      exact ⟨rfl, rfl⟩

theorem loopFit_stall_le (k : ℕ) (X0 X1 : MatQ) (p : ℕ) (m : Option ℕ) :
    ∀ f (s : KState), s.stall ≤ p → (loopFit k X0 X1 p m f s).stall ≤ p := by
  intro f
  induction f with
  | zero => intro s h; exact h
  | succ f ih =>
    intro s h
    rw [loopFit]
    by_cases hg : s.stall < p ∧ iterLt s.iter m
    · rw [if_pos hg]
      refine ih _ ?_
      rcases step_stall k X0 X1 s with h' | h' <;> omega
    · rw [if_neg hg]
      exact h

/-- Invariant of the loop state from iteration 2 on: the view-0 partition
is (forever) `None`, the view-0 objective is locked at `0.0`, and the
view-1 objective recomputation can never improve on the recorded view-1
objective. -/
def Stable (k : ℕ) (X1 : MatQ) (s : KState) : Prop :=
  s.part0 = none ∧ s.obj0 = F.fin 0 ∧
    (oFunct k X1 s.part1 (mStep k X1 none)).lt s.obj1 = false

theorem step_Stable (X0 : MatQ) {k : ℕ} {X1 : MatQ} {s : KState} (h : Stable k X1 s) :
    Stable k X1 (step k X0 X1 s) ∧ (step k X0 X1 s).stall = s.stall + 1 := by
  obtain ⟨hp0, ho0, ho1⟩ := h
  unfold step
  dsimp only
  split
  · rw [hp0, oFunct_none, ho0]
    rw [show (F.fin 0).lt (F.fin 0) = false from F.lt_irrefl _, if_neg (by simp)]
    exact ⟨⟨by simp, by simp, by simpa using ho1⟩, by simp⟩
  · rw [hp0, ho1, if_neg (by simp)]
    exact ⟨⟨by simp, by simpa using ho0, by simpa using ho1⟩, by simp⟩

theorem loopFit_Stable {k : ℕ} {X0 X1 : MatQ} {p : ℕ} {m : Option ℕ} {s : KState}
    (h : Stable k X1 s) :
    ∀ f, p ≤ s.stall + f →
      ¬((loopFit k X0 X1 p m f s).stall < p ∧ iterLt (loopFit k X0 X1 p m f s).iter m) := by
  intro f
  induction f generalizing s with
  | zero =>
    intro hf
    rw [loopFit]
    exact fun hc => absurd hc.1 (by omega)
  | succ f ih =>
    intro hf
    rw [loopFit]
    by_cases hg : s.stall < p ∧ iterLt s.iter m
    · rw [if_pos hg]
      obtain ⟨hst, hstall⟩ := step_Stable X0 h
      exact ih hst (by omega)
    · rw [if_neg hg]
      exact hg

theorem initState_eq (cfg : Cfg) (X1 : MatQ) (oracle : ℕ → ℕ) :
    initState cfg X1 oracle =
      mkState none (some ((initCenters X1 cfg.k oracle).map liftRow))
        (argminAxis0 (computeDistance cfg.k X1 ((initCenters X1 cfg.k oracle).map liftRow))
          X1.length) F.inf F.inf 0 0 := rfl

/-- The first loop iteration updates view 0: with `partitions[0] = None`
the objective is exactly `0.0`, which beats the initial `np.inf`, so the
stall counter resets and `objective[0]` locks at `0.0`. -/
theorem step_even_inf {k : ℕ} {X0 X1 : MatQ} {s : KState}
    (hit : (s.iter + 1 + 1) % 2 = 0) (hp0 : s.part0 = none) (ho0 : s.obj0 = F.inf) :
    step k X0 X1 s =
      { s with cent0 := some (mStep k X0 s.part1), obj0 := F.fin 0,
               stall := 0, iter := s.iter + 1 } := by
  unfold step
  dsimp only
  rw [if_pos hit, hp0, oFunct_none, ho0]
  rw [show (F.fin 0).lt F.inf = true from rfl, if_pos rfl]

theorem step_odd {k : ℕ} {X0 X1 : MatQ} {s : KState}
    (hit : ¬((s.iter + 1 + 1) % 2 = 0)) (hp0 : s.part0 = none) :
    step k X0 X1 s =
      (if (oFunct k X1 s.part1 (mStep k X1 none)).lt s.obj1 then
        { s with cent1 := some (mStep k X1 none),
                 obj1 := oFunct k X1 s.part1 (mStep k X1 none),
                 stall := 0, iter := s.iter + 1 }
      else
        { s with cent1 := some (mStep k X1 none),
                 stall := s.stall + 1, iter := s.iter + 1 }) := by
  unfold step
  dsimp only
  rw [if_neg hit, hp0]

/-- After the first two loop iterations the state is stable: view 0's
objective recomputation always returns exactly `0.0` (no improvement on
the recorded `0.0`), and view 1's recomputation can never improve on the
recorded view-1 objective, so every further iteration only increments the
stall counter while rewriting both centroid sets with the same values. -/
theorem stable_after_two (cfg : Cfg) (X0 X1 : MatQ) (oracle : ℕ → ℕ) :
    Stable cfg.k X1 (step cfg.k X0 X1 (step cfg.k X0 X1 (initState cfg X1 oracle))) ∧
    (step cfg.k X0 X1 (step cfg.k X0 X1 (initState cfg X1 oracle))).stall ≤ 1 ∧
    (step cfg.k X0 X1 (step cfg.k X0 X1 (initState cfg X1 oracle))).cent0 =
      some (mStep cfg.k X0 (initState cfg X1 oracle).part1) ∧
    (step cfg.k X0 X1 (step cfg.k X0 X1 (initState cfg X1 oracle))).cent1 =
      some (mStep cfg.k X1 none) ∧
    (step cfg.k X0 X1 (step cfg.k X0 X1 (initState cfg X1 oracle))).part1 =
      (initState cfg X1 oracle).part1 := by
  rw [initState_eq]
  set C := (initCenters X1 cfg.k oracle).map liftRow with hC
  set P := argminAxis0 (computeDistance cfg.k X1 C) X1.length with hP
  have h1 : step cfg.k X0 X1 (mkState none (some C) P F.inf F.inf 0 0) =
      mkState (some (mStep cfg.k X0 (some P))) (some C) P (F.fin 0) F.inf 0 1 := by
    rw [step_even_inf (by simp [mkState]) (by simp [mkState]) (by simp [mkState])]
    simp [mkState]
  rw [h1]
  have hodd : ¬((((mkState (some (mStep cfg.k X0 (some P))) (some C) P
      (F.fin 0) F.inf 0 1) : KState).iter + 1 + 1) % 2 = 0) := by simp [mkState]
  rw [step_odd hodd (by simp [mkState])]
  by_cases hlt : (oFunct cfg.k X1 (some P) (mStep cfg.k X1 none)).lt F.inf = true
  · rw [if_pos (by simpa [mkState] using hlt)]
    refine ⟨⟨by simp [mkState], by simp [mkState], ?_⟩,
      by simp [mkState], by simp [mkState], by simp [mkState], by simp [mkState]⟩
    simpa [mkState] using F.lt_irrefl (oFunct cfg.k X1 (some P) (mStep cfg.k X1 none))
  · rw [if_neg (by simpa [mkState] using hlt)]
    refine ⟨⟨by simp [mkState], by simp [mkState], ?_⟩,
      by simp [mkState], by simp [mkState], by simp [mkState], by simp [mkState]⟩
    simpa [mkState] using hlt

/-- From iteration 2 on the state also carries the final centroid values:
view 0's M-step always recomputes the same centroids from the frozen
view-2 partition, and view 1's M-step always recomputes the same all-nan
block from the `None` view-1 partition. -/
def StableC (k : ℕ) (X0 X1 : MatQ) (s : KState) : Prop :=
  Stable k X1 s ∧ s.cent0 = some (mStep k X0 s.part1) ∧ s.cent1 = some (mStep k X1 none)

theorem step_of_StableC {k : ℕ} {X0 X1 : MatQ} {s : KState} (h : StableC k X0 X1 s) :
    step k X0 X1 s = { s with stall := s.stall + 1, iter := s.iter + 1 } := by
  obtain ⟨⟨hp0, ho0, ho1⟩, hc0, hc1⟩ := h
  unfold step
  dsimp only
  split
  · rw [hp0, oFunct_none, ho0]
    rw [show (F.fin 0).lt (F.fin 0) = false from F.lt_irrefl _, if_neg (by simp)]
    rw [← hc0]
  · rw [hp0, ho1, if_neg (by simp), ← hc1]

theorem stableC_update {k : ℕ} {X0 X1 : MatQ} {s : KState} (h : StableC k X0 X1 s)
    (a b : ℕ) : StableC k X0 X1 { s with stall := a, iter := b } := by
  obtain ⟨⟨hp0, ho0, ho1⟩, hc0, hc1⟩ := h
  exact ⟨⟨by simpa using hp0, by simpa using ho0, by simpa using ho1⟩,
    by simpa using hc0, by simpa using hc1⟩

theorem loopFit_cents_of_StableC {k : ℕ} {X0 X1 : MatQ} {p : ℕ} {m : Option ℕ} :
    ∀ f {s : KState}, StableC k X0 X1 s →
      (loopFit k X0 X1 p m f s).cent0 = s.cent0 ∧
      (loopFit k X0 X1 p m f s).cent1 = s.cent1 := by
  intro f
  induction f with
  | zero => intro s _; exact ⟨rfl, rfl⟩
  | succ f ih =>
    intro s h
    rw [loopFit]
    by_cases hg : s.stall < p ∧ iterLt s.iter m
    · rw [if_pos hg, step_of_StableC h]
      obtain ⟨h0, h1⟩ := ih (stableC_update h (s.stall + 1) (s.iter + 1))
      exact ⟨by simpa using h0, by simpa using h1⟩
    · rw [if_neg hg]
      exact ⟨rfl, rfl⟩

theorem iterLt_zero_eff (mi : Option ℕ) : iterLt 0 (effMaxIter mi) := by
  cases mi with
  | none => trivial
  | some v => cases v with
    | zero => trivial
    | succ v => exact Nat.succ_pos v

theorem step_init (cfg : Cfg) (X0 X1 : MatQ) (oracle : ℕ → ℕ) :
    step cfg.k X0 X1 (initState cfg X1 oracle) =
      { initState cfg X1 oracle with
          cent0 := some (mStep cfg.k X0 (initState cfg X1 oracle).part1),
          obj0 := F.fin 0, stall := 0, iter := 1 } := by
  have h0 : (initState cfg X1 oracle).iter = 0 := by rw [initState_eq]; simp [mkState]
  have h1 : (initState cfg X1 oracle).part0 = none := by rw [initState_eq]; simp [mkState]
  have h2 : (initState cfg X1 oracle).obj0 = F.inf := by rw [initState_eq]; simp [mkState]
  rw [step_even_inf (by rw [h0]) h1 h2, h0]

/-- The fitted centroids do not depend on `patience`, provided it is
positive: the loop always runs at least one iteration (writing view 0's
centroids), runs a second one exactly when `max_iter` allows it (writing
view 1's all-nan centroids), and every further iteration rewrites both
with identical values. -/
theorem fit_cents_char (cfg : Cfg) (X0 X1 : MatQ) (oracle : ℕ → ℕ) {p : ℕ} (hp : 1 ≤ p) :
    ((fitState cfg X0 X1 p oracle).cent0, (fitState cfg X0 X1 p oracle).cent1) =
      if iterLt 1 (effMaxIter cfg.maxIter) then
        (some (mStep cfg.k X0 (initState cfg X1 oracle).part1), some (mStep cfg.k X1 none))
      else
        (some (mStep cfg.k X0 (initState cfg X1 oracle).part1),
          (initState cfg X1 oracle).cent1) := by
  have hg0 : (initState cfg X1 oracle).stall < p ∧
      iterLt (initState cfg X1 oracle).iter (effMaxIter cfg.maxIter) := by
    constructor
    · rw [initState_eq]; simpa [mkState] using hp
    · rw [initState_eq]
      simpa [mkState] using iterLt_zero_eff cfg.maxIter
  unfold fitState
  rw [show p + 3 = (p + 2) + 1 from rfl, loopFit, if_pos hg0]
  by_cases hm : iterLt 1 (effMaxIter cfg.maxIter)
  · rw [if_pos hm]
    have hg1 : (step cfg.k X0 X1 (initState cfg X1 oracle)).stall < p ∧
        iterLt (step cfg.k X0 X1 (initState cfg X1 oracle)).iter (effMaxIter cfg.maxIter) := by
      rw [step_init]
      exact ⟨by simpa using hp, by simpa using hm⟩
    rw [show p + 2 = (p + 1) + 1 from rfl, loopFit, if_pos hg1]
    obtain ⟨hst, -, hc0, hc1, hpt⟩ := stable_after_two cfg X0 X1 oracle
    have hsc : StableC cfg.k X0 X1
        (step cfg.k X0 X1 (step cfg.k X0 X1 (initState cfg X1 oracle))) := by
      refine ⟨hst, ?_, hc1⟩
      rw [hc0, hpt]
    obtain ⟨e0, e1⟩ := loopFit_cents_of_StableC (p := p) (m := effMaxIter cfg.maxIter)
      (p + 1) hsc
    rw [e0, e1, hc0, hc1]
  · rw [if_neg hm]
    have hg1 : ¬((step cfg.k X0 X1 (initState cfg X1 oracle)).stall < p ∧
        iterLt (step cfg.k X0 X1 (initState cfg X1 oracle)).iter (effMaxIter cfg.maxIter)) := by
      rw [step_init]
      exact fun hc => hm (by simpa using hc.2)
    rw [loopFit_of_not_guard hg1]
    rw [step_init]

theorem fit_cents_eq (cfg : Cfg) (X0 X1 : MatQ) (oracle : ℕ → ℕ) {p q : ℕ}
    (hp : 1 ≤ p) (hq : 1 ≤ q) :
    (fitState cfg X0 X1 p oracle).cent0 = (fitState cfg X0 X1 q oracle).cent0 ∧
    (fitState cfg X0 X1 p oracle).cent1 = (fitState cfg X0 X1 q oracle).cent1 := by
  have h1 := fit_cents_char cfg X0 X1 oracle hp
  have h2 := fit_cents_char cfg X0 X1 oracle hq
  have h := h1.trans h2.symm
  exact ⟨congrArg Prod.fst h, congrArg Prod.snd h⟩

/-- The loop guard is false at the state `fit` returns: the while loop's
own exit condition certifies termination within the chosen fuel. -/
theorem fit_guard_false (cfg : Cfg) (X0 X1 : MatQ) (p : ℕ) (oracle : ℕ → ℕ) :
    ¬((fitState cfg X0 X1 p oracle).stall < p ∧
      iterLt (fitState cfg X0 X1 p oracle).iter (effMaxIter cfg.maxIter)) := by
  unfold fitState
  by_cases hg0 : (initState cfg X1 oracle).stall < p ∧
      iterLt (initState cfg X1 oracle).iter (effMaxIter cfg.maxIter)
  · rw [show p + 3 = (p + 2) + 1 from rfl, loopFit, if_pos hg0]
    by_cases hg1 : (step cfg.k X0 X1 (initState cfg X1 oracle)).stall < p ∧
        iterLt (step cfg.k X0 X1 (initState cfg X1 oracle)).iter (effMaxIter cfg.maxIter)
    · rw [show p + 2 = (p + 1) + 1 from rfl, loopFit, if_pos hg1]
      obtain ⟨hst, -⟩ := stable_after_two cfg X0 X1 oracle
      exact loopFit_Stable hst (p + 1) (by omega)
    · rw [loopFit_of_not_guard hg1]
      exact hg1
  · rw [loopFit_of_not_guard hg0]
    exact hg0

end KMeans

/-! ### IEEE order lemmas and `argmin` correctness -/


theorem F.le_refl_nonNan {x : F} (h : x.isNan = false) : x.le x = true := by
  cases x <;> simp_all [F.isNan, F.le]

theorem F.le_of_lt_false {x y : F} (hx : x.isNan = false) (hy : y.isNan = false)
    (h : x.lt y = false) : y.le x = true := by
  cases x <;> cases y <;> simp_all [F.isNan, F.lt, F.le] <;> linarith

theorem F.le_of_lt {x y : F} (h : x.lt y = true) : x.le y = true := by
  cases x <;> cases y <;> simp_all [F.lt, F.le] <;> linarith

theorem F.le_trans {x y z : F} (h1 : x.le y = true) (h2 : y.le z = true) :
    x.le z = true := by
  cases x <;> cases y <;> cases z <;> simp_all [F.le] <;> linarith

theorem firstNanIdx_none {l : List F} (h : ∀ x ∈ l, x.isNan = false) :
    firstNanIdx l = none := by
  induction l with
  | nil => rfl
  | cons x xs ih =>
    unfold firstNanIdx
    rw [if_neg (by simp [h x (by simp)]), ih (fun y hy => h y (by simp [hy]))]
    rfl

theorem firstNanIdx_lt {l : List F} {i : ℕ} (h : firstNanIdx l = some i) :
    i < l.length := by
  induction l generalizing i with
  | nil => simp [firstNanIdx] at h
  | cons x xs ih =>
    unfold firstNanIdx at h
    simp only [List.length_cons]
    by_cases hx : x.isNan = true
    · rw [if_pos hx] at h
      simp only [Option.some.injEq] at h
      omega
    · rw [if_neg hx] at h
      cases hfx : firstNanIdx xs with
      | none => rw [hfx] at h; simp at h
      | some j =>
        rw [hfx] at h
        simp at h
        have := ih hfx
        omega

theorem minIdxAux_lt (xs : List F) : ∀ (cur : F) (i best : ℕ), best < i →
    minIdxAux xs cur i best < i + xs.length := by
  induction xs with
  | nil => intro cur i best h; simpa [minIdxAux] using h
  | cons x xs ih =>
    intro cur i best h
    unfold minIdxAux
    simp only [List.length_cons]
    by_cases hx : x.lt cur = true
    · rw [if_pos hx]
      have := ih x (i+1) i (by omega)
      omega
    · rw [if_neg hx]
      have := ih cur (i+1) best (by omega)
      omega

theorem argminF_lt_length {l : List F} (h : l ≠ []) : argminF l < l.length := by
  unfold argminF
  cases hf : firstNanIdx l with
  | some i => exact firstNanIdx_lt hf
  | none =>
    cases l with
    | nil => exact absurd rfl h
    | cons x xs =>
      have := minIdxAux_lt xs x 1 0 (by omega)
      simp only [List.length_cons]
      omega



theorem getD_mem_of_lt {l : List F} {j : ℕ} (h : j < l.length) : l.getD j F.nan ∈ l := by
  rw [List.getD_eq_getElem l F.nan h]
  exact List.getElem_mem h

theorem minIdxAux_min (full : List F) (hnan : ∀ x ∈ full, x.isNan = false) :
    ∀ (xs : List F) (cur : F) (i best : ℕ), best < i → i + xs.length = full.length →
      full.drop i = xs → full.getD best F.nan = cur →
      (∀ j, j < i → cur.le (full.getD j F.nan) = true) →
      (∀ j, j < full.length →
        (full.getD (minIdxAux xs cur i best) F.nan).le (full.getD j F.nan) = true) := by
  intro xs
  induction xs with
  | nil =>
    intro cur i best hbi hlen hdrop hcur hmin j hj
    unfold minIdxAux
    rw [hcur]
    exact hmin j (by simp only [List.length_nil] at hlen; omega)
  | cons x xs ih =>
    intro cur i best hbi hlen hdrop hcur hmin j hj
    have hil : i < full.length := by simp only [List.length_cons] at hlen; omega
    have hx : full.getD i F.nan = x := by
      have h2 : (full.drop i)[0]? = some x := by rw [hdrop]; simp
      rw [List.getElem?_drop] at h2
      have h2' : full[i]? = some x := by simpa using h2
      rw [List.getD_eq_getElem?_getD, h2']
      rfl
    have hdrop' : full.drop (i + 1) = xs := by
      have h3 : (full.drop i).drop 1 = xs := by rw [hdrop]; rfl
      rw [List.drop_drop] at h3
      simpa [Nat.add_comm] using h3
    have hcurnan : cur.isNan = false := by
      rw [← hcur]
      exact hnan _ (getD_mem_of_lt (by omega))
    have hxnan : x.isNan = false := by
      rw [← hx]
      exact hnan _ (getD_mem_of_lt hil)
    unfold minIdxAux
    by_cases hlt : x.lt cur = true
    · rw [if_pos hlt]
      refine ih x (i + 1) i (by omega) (by simp only [List.length_cons] at hlen ⊢; omega)
        hdrop' hx ?_ j hj
      intro j' hj'
      by_cases hji : j' < i
      · exact F.le_trans (F.le_of_lt hlt) (hmin j' hji)
      · have : j' = i := by omega
        rw [this, hx]
        exact F.le_refl_nonNan hxnan
    · rw [if_neg hlt]
      refine ih cur (i + 1) best (by omega) (by simp only [List.length_cons] at hlen ⊢; omega)
        hdrop' hcur ?_ j hj
      intro j' hj'
      by_cases hji : j' < i
      · exact hmin j' hji
      · have : j' = i := by omega
        rw [this, hx]
        exact F.le_of_lt_false hxnan hcurnan (by simpa using hlt)

theorem argminF_min {l : List F} (hnan : ∀ x ∈ l, x.isNan = false) :
    ∀ j, j < l.length → (l.getD (argminF l) F.nan).le (l.getD j F.nan) = true := by
  intro j hj
  unfold argminF
  rw [firstNanIdx_none hnan]
  cases l with
  | nil => simp at hj
  | cons x xs =>
    exact minIdxAux_min (x :: xs) hnan xs x 1 0 (by omega)
      (by simp only [List.length_cons]; omega)
      (by simp) (by simp) (fun j' hj' => by
        interval_cases j'
        simpa using F.le_refl_nonNan (hnan x (by simp))) j hj



theorem column_getD (m : MatF) (i : ℕ) :
    ∀ c, (column m i).getD c F.nan = (m.getD c []).getD i F.nan := by
  induction m with
  | nil => intro c; cases c <;> simp [column]
  | cons r m ih =>
    intro c
    cases c with
    | zero => simp [column]
    | succ c => simpa [column] using ih c

theorem column_length (m : MatF) (i : ℕ) : (column m i).length = m.length := by
  simp [column]

namespace KMeans

/-- The label computed by `predict` for sample `i` is a cluster index at
which the per-sample decision column attains its minimum (all comparisons
through IEEE `≤`). -/
def isMinAt (m : MatF) (c i : ℕ) : Prop :=
  ∀ c', c' < m.length → ((m.getD c []).getD i F.nan).le ((m.getD c' []).getD i F.nan) = true

theorem predictMetric_length (k : ℕ) (X0 X1 : MatQ) (c0 c1 : MatF) :
    (predictMetric k X0 X1 c0 c1).length = k := by
  simp [predictMetric, matAdd, computeDistance]

theorem argminAxis0_length (d : MatF) (n : ℕ) : (argminAxis0 d n).length = n := by
  simp [argminAxis0]

theorem argminAxis0_getD (d : MatF) (n i : ℕ) (h : i < n) :
    (argminAxis0 d n).getD i 0 = argminF (column d i) := by
  unfold argminAxis0
  rw [List.getD_eq_getElem _ _ (by simpa using h)]
  simp

/-- Claim C9, amended: on a model with both centroid sets present,
`predict` returns one integer label per sample of view 1, every label lies
in `[0, k)`, and whenever a sample's decision column (`dist1 + dist2`
against the consensus centroids) is nan-free, the returned label is a
cluster index minimizing that column.  (When the column contains nan —
e.g. an empty consensus mask, or the all-nan view-2 centroids every real
`fit` produces — `np.argmin` returns the first nan index, which minimizes
nothing.) -/
theorem predict_labels_valid (k : ℕ) (c0 c1 : MatF) (X0 X1 : MatQ) (lbls : List ℕ)
    (hk : 1 ≤ k)
    (h : predictE k (some (some c0, some c1)) X0 X1 = Except.ok lbls) :
    lbls.length = X0.length ∧ (∀ l ∈ lbls, l < k) ∧
    ∀ i, i < X0.length →
      (∀ x ∈ column (predictMetric k X0 X1 c0 c1) i, x.isNan = false) →
      isMinAt (predictMetric k X0 X1 c0 c1) (lbls.getD i 0) i := by
  have hlb : lbls = argminAxis0 (predictMetric k X0 X1 c0 c1) X0.length := by
    simp only [predictE, Except.ok.injEq] at h
    exact h.symm
  refine ⟨?_, ?_, ?_⟩
  · rw [hlb]; exact argminAxis0_length _ _
  · intro l hl
    rw [hlb] at hl
    unfold argminAxis0 at hl
    simp only [List.mem_map, List.mem_range] at hl
    obtain ⟨i, -, rfl⟩ := hl
    have hne : column (predictMetric k X0 X1 c0 c1) i ≠ [] := by
      have : (column (predictMetric k X0 X1 c0 c1) i).length = k := by
        rw [column_length, predictMetric_length]
      intro hc
      rw [hc] at this
      simp at this
      omega
    have := argminF_lt_length hne
    rwa [column_length, predictMetric_length] at this
  · intro i hi hnan
    rw [hlb, argminAxis0_getD _ _ _ hi]
    intro c' hc'
    rw [← column_getD, ← column_getD]
    refine argminF_min hnan c' ?_
    rw [column_length]
    exact hc'

/-! ### KMeans claim theorems -/


/-- Evaluation of `predict` on the centroids produced by
`fit_run_id_oracle`: the all-nan rows of `dist_metric` make `np.argmin`
return the nan index 1 for every sample. -/
theorem predict_run_id_eval :
    predictE 2 (some (some [[F.fin 0],[F.fin 2]], some [[F.nan],[F.nan],[F.nan],[F.nan]]))
      [[0],[2]] [[0],[10]] = Except.ok [1, 1] := by
  unfold predictE
  dsimp only
  rw [predict_metric_run_id]
  norm_num [argminAxis0, argminF, firstNanIdx, minIdxAux, column, F.isNan, F.lt,
    List.range_succ, List.getD_cons_zero, List.getD_cons_succ]

/-- Claim C1 (code bug): the E-step's `new_partitions` is never stored, so
throughout `fit` the `partitions` list keeps its initial value: the view-0
entry stays `None` and the view-1 entry stays the initial nearest-centroid
partition of view 2.  Every M-step of every iteration therefore reads the
initial partition (or `None`), never a recomputed one. -/
theorem fit_partition_never_updated (cfg : Cfg) (X0 X1 : MatQ) (p : ℕ) (oracle : ℕ → ℕ) :
    (fitState cfg X0 X1 p oracle).part0 = none ∧
    (fitState cfg X0 X1 p oracle).part1 = (initState cfg X1 oracle).part1 ∧
    (∀ s : KState, (step cfg.k X0 X1 s).part0 = s.part0 ∧
      (step cfg.k X0 X1 s).part1 = s.part1) := by
  have h := loopFit_parts cfg.k X0 X1 p (effMaxIter cfg.maxIter) (p + 3) (initState cfg X1 oracle)
  refine ⟨?_, ?_, fun s => step_parts cfg.k X0 X1 s⟩
  · unfold fitState
    rw [h.1, initState_eq]
    simp [mkState]
  · unfold fitState
    exact h.2

/-- Claim C2 (code bug): `fit` never reads `self._random_state`; its result
is a function of the global NumPy generator state (the oracle).  Two runs
of the same seeded instance on the same input but different global
generator states produce different fitted states, while changing the seed
with the generator state fixed changes nothing. -/
theorem fit_ignores_random_state :
    fitState { k := 2, randomState := some 42 } [[0],[2]] [[0],[10]] 5 (fun i => i) ≠
      fitState { k := 2, randomState := some 42 } [[0],[2]] [[0],[10]] 5 (fun _ => 0) ∧
    fitState { k := 2, randomState := some 42 } [[0],[2]] [[0],[10]] 5 (fun i => i) =
      fitState { k := 2, randomState := none } [[0],[2]] [[0],[10]] 5 (fun i => i) := by
  constructor
  · have hA : fitState { k := 2, randomState := some 42 } [[0],[2]] [[0],[10]] 5 (fun i => i) =
        mkState (some [[F.fin 0],[F.fin 2]]) (some [[F.nan],[F.nan],[F.nan],[F.nan]])
          [0,1] (F.fin 0) F.inf 5 6 := fit_run_id_oracle
    have hB : fitState { k := 2, randomState := some 42 } [[0],[2]] [[0],[10]] 5 (fun _ => 0) =
        mkState (some [[F.fin 1],[F.nan]]) (some [[F.nan],[F.nan],[F.nan],[F.nan]])
          [0,0] (F.fin 0) F.inf 5 6 := fit_run_zero_oracle
    rw [hA, hB]
    intro hcontra
    simp only [mkState, KState.mk.injEq, Option.some.injEq] at hcontra
    obtain ⟨h1, -⟩ := hcontra
    simp [F.fin.injEq] at h1
  · rfl



/-- Claim C3, counterexample: `np.random.choice(n, k)` samples **with**
replacement, so the all-zeros draw is a possible outcome; the two chosen
indices coincide and the two initial centroids are the same row — not
pairwise distinct. -/
theorem init_centers_duplicate_cex :
    npChoice 3 2 (fun _ => 0) = [0, 0] ∧
    ¬ (npChoice 3 2 (fun _ => 0)).Nodup ∧
    initCenters [[1],[2],[3]] 2 (fun _ => 0) = [[1],[1]] ∧
    (initCenters [[1],[2],[3]] 2 (fun _ => 0)).getD 0 [] =
      (initCenters [[1],[2],[3]] 2 (fun _ => 0)).getD 1 [] := by
  refine ⟨by decide, by decide, ?_, ?_⟩
  · norm_num [initCenters, npChoice, List.range_succ]
  · norm_num [initCenters, npChoice, List.range_succ]

/-- Claim C3, amended: the initialization draws `k` indices uniformly at
random **with replacement** from view 2's rows, so each initial centroid
is a row of view 2, but the indices (hence the centroids) need not be
distinct. -/
theorem init_centers_rows_with_replacement (X1 : MatQ) (k : ℕ) (oracle : ℕ → ℕ)
    (hn : 0 < X1.length) :
    (npChoice X1.length k oracle).length = k ∧
    (∀ i ∈ npChoice X1.length k oracle, i < X1.length) ∧
    (∀ c ∈ initCenters X1 k oracle, c ∈ X1) := by
  refine ⟨by simp [npChoice], ?_, ?_⟩
  · intro i hi
    simp only [npChoice, List.mem_map, List.mem_range] at hi
    obtain ⟨j, -, rfl⟩ := hi
    exact Nat.mod_lt _ hn
  · intro c hc
    simp only [initCenters, List.mem_map] at hc
    obtain ⟨i, hi, rfl⟩ := hc
    have hilt : i < X1.length := by
      simp only [npChoice, List.mem_map, List.mem_range] at hi
      obtain ⟨j, -, rfl⟩ := hi
      exact Nat.mod_lt _ hn
    rw [List.getD_eq_getElem _ _ hilt]
    exact List.getElem_mem _

/-- Witness for `init_centers_rows_with_replacement` at a concrete input. -/
theorem init_centers_rows_with_replacement_witness :
    (npChoice ([[1],[2],[3]] : MatQ).length 2 (fun _ => 0)).length = 2 ∧
    (∀ i ∈ npChoice ([[1],[2],[3]] : MatQ).length 2 (fun _ => 0),
      i < ([[1],[2],[3]] : MatQ).length) ∧
    (∀ c ∈ initCenters [[1],[2],[3]] 2 (fun _ => 0), c ∈ ([[1],[2],[3]] : MatQ)) :=
  init_centers_rows_with_replacement [[1],[2],[3]] 2 (fun _ => 0) (by norm_num)

/-- Claim C7, amended: `fit_predict(Xs, patience)` returns exactly the
labels of `fit(Xs, patience)` followed by `predict(Xs)` (same global
generator draws), for every **positive** `patience`.  The source drops
the `patience` argument and fits with the default `5`; the equality
nevertheless holds for positive patience because the fitted centroids are
the same for every positive patience.  (At `patience = 0` it fails — see
`fit_predict_patience_zero_cex`.) -/
theorem fit_predict_eq_fit_then_predict (cfg : Cfg) (X0 X1 : MatQ) (p : ℕ)
    (oracle : ℕ → ℕ) (hp : 1 ≤ p) :
    fitPredictE cfg X0 X1 p oracle =
      predictE cfg.k (some (fitModel cfg X0 X1 p oracle)) X0 X1 := by
  unfold fitPredictE fitModel
  dsimp only
  obtain ⟨h0, h1⟩ := fit_cents_eq cfg X0 X1 oracle (p := 5) (q := p) (by norm_num) hp
  rw [h0, h1]

/-- Witness for `fit_predict_eq_fit_then_predict` at a concrete input. -/
theorem fit_predict_eq_fit_then_predict_witness :
    fitPredictE { k := 2 } [[0],[2]] [[0],[10]] 7 (fun i => i) =
      predictE ({ k := 2 } : Cfg).k
        (some (fitModel { k := 2 } [[0],[2]] [[0],[10]] 7 (fun i => i))) [[0],[2]] [[0],[10]] :=
  fit_predict_eq_fit_then_predict { k := 2 } [[0],[2]] [[0],[10]] 7 (fun i => i) (by norm_num)

/-- Claim C7, counterexample: at `patience = 0` the composition breaks.
`fit_predict(Xs, 0)` ignores its argument and fits with the default
patience 5, then predicts labels; but `fit(Xs, 0)` runs zero loop
iterations (the `while` guard `iter_stall < 0` is immediately false),
leaving `_centroids = [None, centers]`, and the subsequent `predict`
subscripts `None` and raises a `TypeError`. -/
theorem fit_predict_patience_zero_cex :
    fitPredictE { k := 2 } [[0],[2]] [[0],[10]] 0 (fun i => i) = Except.ok [1, 1] ∧
    predictE ({ k := 2 } : Cfg).k
      (some (fitModel { k := 2 } [[0],[2]] [[0],[10]] 0 (fun i => i))) [[0],[2]] [[0],[10]] =
      Except.error PyErr.typeError ∧
    (Except.ok [1, 1] : Except PyErr (List ℕ)) ≠ Except.error PyErr.typeError := by
  refine ⟨?_, ?_, by simp⟩
  · unfold fitPredictE fitModel
    dsimp only
    rw [fit_run_id_oracle]
    simp only [mkState]
    exact predict_run_id_eval
  · unfold fitModel fitState
    dsimp only
    rw [loopFit_of_not_guard (fun hc => absurd hc.1 (by omega)), initState_eq]
    simp [mkState, predictE]

/-- Claim C8: the EM loop's exit guard is false at the state `fit`
returns (the stall counter reached `patience` or the iteration counter
reached the effective `max_iter`); the stall counter never exceeds
`patience`; and a step either keeps a recorded per-view objective or
replaces it with a strictly smaller one. -/
theorem fit_terminates_and_objective_monotone (cfg : Cfg) (X0 X1 : MatQ) (p : ℕ)
    (oracle : ℕ → ℕ) :
    (¬((fitState cfg X0 X1 p oracle).stall < p ∧
        iterLt (fitState cfg X0 X1 p oracle).iter (effMaxIter cfg.maxIter))) ∧
    (fitState cfg X0 X1 p oracle).stall ≤ p ∧
    (∀ s : KState,
      ((step cfg.k X0 X1 s).obj0 = s.obj0 ∨ ((step cfg.k X0 X1 s).obj0).lt s.obj0 = true) ∧
      ((step cfg.k X0 X1 s).obj1 = s.obj1 ∨ ((step cfg.k X0 X1 s).obj1).lt s.obj1 = true)) := by
  refine ⟨fit_guard_false cfg X0 X1 p oracle, ?_, fun s => step_obj cfg.k X0 X1 s⟩
  unfold fitState
  apply loopFit_stall_le
  rw [initState_eq]
  simp [mkState]



/-- Claim C10: on the input `([[0],[2]], [[0],[10]])` with `k = 2` and the
all-zeros draw, the initial view-2 partition assigns every sample to
cluster 0, so cluster 1's M-step selection is empty; the unguarded
`np.mean` over it divides `0.0` by a zero count and stores a nan centroid,
and `fit` runs to its normal termination (guard false) with nan centroids
in both views' stored centroid sets. -/
theorem fit_empty_cluster_nan :
    (initState { k := 2 } [[0],[10]] (fun _ => 0)).part1 = some [0, 0] ∧
    selectRows [[0],[2]] [0, 0] 1 = [] ∧
    mStep 2 [[0],[2]] (some [0, 0]) = [[F.fin 1],[F.nan]] ∧
    (fitState { k := 2 } [[0],[2]] [[0],[10]] 5 (fun _ => 0)).cent0 =
      some [[F.fin 1],[F.nan]] ∧
    (fitState { k := 2 } [[0],[2]] [[0],[10]] 5 (fun _ => 0)).cent1 =
      some [[F.nan],[F.nan],[F.nan],[F.nan]] ∧
    ¬((fitState { k := 2 } [[0],[2]] [[0],[10]] 5 (fun _ => 0)).stall < 5 ∧
      iterLt (fitState { k := 2 } [[0],[2]] [[0],[10]] 5 (fun _ => 0)).iter
        (effMaxIter ({ k := 2 } : Cfg).maxIter)) := by
  refine ⟨?_, ?_, ?_, ?_, ?_, ?_⟩
  · norm_num [initState, mkState, initCenters, npChoice, computeDistance, argminAxis0,
      argminF, firstNanIdx, minIdxAux, column, rowSub, liftRow, width, normF, sumF,
      F.add, F.sub, F.mul, F.sqrt, F.lt, F.isNan, List.range_succ,
      ratSqrt0, ratSqrt100, List.filterMap_cons, List.filterMap_nil,
      List.getD_cons_zero, List.getD_cons_succ, List.sum_cons, List.sum_nil]
  · norm_num [selectRows, List.filterMap_cons, List.filterMap_nil]
  · norm_num [mStep, mStepSel, meanRows, selectRows, width, F.div, List.range_succ,
      List.filterMap_cons, List.filterMap_nil, List.getD_cons_zero, List.getD_cons_succ,
      List.sum_cons, List.sum_nil]
  · rw [fit_run_zero_oracle]; simp [mkState]
  · rw [fit_run_zero_oracle]; simp [mkState]
  · rw [fit_run_zero_oracle]; simp [mkState]

/-- Claim C9, counterexample: after an actual `fit` (identity oracle) the
view-2 centroids are all nan, so in `predict` view 2's partition is the
all-zeros nan-argmin, cluster 1's consensus mask is empty, its consensus
centroids are nan, and `np.argmin` over the per-sample decision column
`[0, nan]` returns the nan index 1: the returned label 1 for sample 0 is
*not* a minimizer of the decision column. -/
theorem predict_not_minimizer_cex :
    fitModel { k := 2 } [[0],[2]] [[0],[10]] 5 (fun i => i) =
      (some [[F.fin 0],[F.fin 2]], some [[F.nan],[F.nan],[F.nan],[F.nan]]) ∧
    predictE 2 (some (some [[F.fin 0],[F.fin 2]], some [[F.nan],[F.nan],[F.nan],[F.nan]]))
      [[0],[2]] [[0],[10]] = Except.ok [1, 1] ∧
    ¬ isMinAt (predictMetric 2 [[0],[2]] [[0],[10]] [[F.fin 0],[F.fin 2]]
        [[F.nan],[F.nan],[F.nan],[F.nan]]) 1 0 := by
  refine ⟨?_, ?_, ?_⟩
  · unfold fitModel
    dsimp only
    rw [fit_run_id_oracle]
    simp [mkState]
  · exact predict_run_id_eval
  · intro hmin
    have h0 := hmin 0 (by rw [predict_metric_run_id]; norm_num)
    rw [predict_metric_run_id] at h0
    simp [F.le, List.getD_cons_zero, List.getD_cons_succ] at h0

/-- Witness for `predict_labels_valid` at a concrete fitted model. -/
theorem predict_labels_valid_witness :
    ([0] : List ℕ).length = ([[(0:ℚ)]] : MatQ).length ∧
    (∀ l ∈ ([0] : List ℕ), l < 1) ∧
    (∀ i, i < ([[(0:ℚ)]] : MatQ).length →
      (∀ x ∈ column (predictMetric 1 [[0]] [[0]] [[F.fin 0]] [[F.fin 0]]) i, x.isNan = false) →
      isMinAt (predictMetric 1 [[0]] [[0]] [[F.fin 0]] [[F.fin 0]]) (([0] : List ℕ).getD i 0) i) :=
  predict_labels_valid 1 [[F.fin 0]] [[F.fin 0]] [[0]] [[0]] [0] (by norm_num)
    (by norm_num [predictE, predictMetric, consensus, selectRows2, matAdd, meanRows,
      computeDistance, argminAxis0, argminF, firstNanIdx, minIdxAux, column, rowSub,
      liftRow, width, normF, sumF, F.add, F.sub, F.mul, F.div, F.sqrt, F.lt, F.isNan,
      List.range_succ, ratSqrt0, List.filterMap_cons, List.filterMap_nil,
      List.getD_cons_zero, List.getD_cons_succ, List.sum_cons, List.sum_nil])


end KMeans


/-! ## Kernel CCA (`src/mvlearn/embed/kcca.py`)

The KCCA engine is embedded over `ℝ` and `ℂ`: its data are real kernel
matrices and the complex spectral output of `scipy.linalg.eig`, which is
external library code and is therefore modelled as an oracle parameter
supplying the `(betas, alphas)` pair that `fit` post-processes. -/

namespace KCCA

/-- A Python numeric scalar passed to `KCCA.__init__`: an `int` or a
`float` with its value.  The constructor's checks test both the value and
the Python type tag (`type(x) == int` / `type(x) == float`). -/
inductive PyNum where
  | int : ℤ → PyNum
  | float : ℚ → PyNum
deriving DecidableEq, Repr

def PyNum.val : PyNum → ℚ
  | .int z => (z : ℚ)
  | .float q => q

def PyNum.isInt : PyNum → Bool
  | .int _ => true
  | .float _ => false

def PyNum.isFloat : PyNum → Bool
  | .int _ => false
  | .float _ => true

/-- The `[:self.n_components]` slice bound.  After validation
`n_components` is a non-negative `int`; the `float` branch (which in
Python would raise a `TypeError` at the slice) is mapped to the floor. -/
def PyNum.toNatVal : PyNum → ℕ
  | .int z => z.toNat
  | .float q => q.floor.toNat

/-- The constructor parameters of `KCCA` with their source defaults
(`kcca.py` lines 165-183). -/
structure Cfg where
  n_components : PyNum := .int 2
  ktype : String := "linear"
  constant : PyNum := .float (1/10)
  sigma : PyNum := .float 1
  degree : PyNum := .float 2
  reg : PyNum := .float (1/10)
  decomp : String := "full"
  method : String := "kettenring-like"
deriving DecidableEq, Repr

/-- The `# Error Handling` block of `KCCA.__init__` (`kcca.py` lines
185-200), checks in source order.  Note the slips preserved from the
source: `n_components < 0` and `sigma < 0` accept zero, and the `degree`
check reads `type(self.sigma) == int` instead of `degree`'s own type and
never checks `degree`'s sign; `decomp` and `method` are not checked at
all. -/
def initCheck (c : Cfg) : Except PyErr Unit :=
  if c.n_components.val < 0 ∨ ¬(c.n_components.isInt = true) then
    .error (.valueError "n_components must be a positive integer")
  else if ¬(c.ktype = "linear") ∧ ¬(c.ktype = "poly") ∧ ¬(c.ktype = "gaussian") then
    .error (.valueError "ktype must be linear, gaussian, or poly.")
  else if c.sigma.val < 0 ∨ ¬(c.sigma.isFloat = true ∨ c.sigma.isInt = true) then
    .error (.valueError "sigma must be positive int/float")
  else if ¬(c.degree.isFloat = true ∨ c.sigma.isInt = true) then
    .error (.valueError "degree must be int/float")
  else if c.reg.val < 0 ∨ 1 < c.reg.val ∨ ¬(c.reg.isFloat = true) then
    .error (.valueError "reg must be positive float")
  else if c.constant.val < 0 ∨ ¬(c.constant.isFloat = true ∨ c.constant.isInt = true) then
    .error (.valueError "constant must be a positive integer")
  else .ok ()

/-- A real matrix as a list of rows. -/
abbrev MatR := List (List ℝ)

def matWidth (A : MatR) : ℕ := (A.headD []).length

noncomputable def dotR (a b : List ℝ) : ℝ := (List.zipWith (· * ·) a b).sum

noncomputable def transposeR (A : MatR) : MatR :=
  (List.range (matWidth A)).map (fun j => A.map (fun r => r.getD j 0))

noncomputable def mmulR (A B : MatR) : MatR :=
  A.map (fun ra => (transposeR B).map (fun cb => dotR ra cb))

noncomputable def matScaleR (c : ℝ) (A : MatR) : MatR := A.map (List.map (c * ·))

noncomputable def matAddR (A B : MatR) : MatR := List.zipWith (List.zipWith (· + ·)) A B

noncomputable def matMapR (f : ℝ → ℝ) (A : MatR) : MatR := A.map (List.map f)

noncomputable def eyeR (n : ℕ) : MatR :=
  (List.range n).map (fun i => (List.range n).map (fun j => if i = j then 1 else 0))

def onesR (n : ℕ) : MatR := List.replicate n (List.replicate n 1)

def zerosR (n : ℕ) : MatR := List.replicate n (List.replicate n 0)

/-- `np.eye(N) - 1/N*np.ones(N)` (`kcca.py` lines 325-326): the 1-D
`ones(N)` broadcasts against the identity, so this is the centering
operator `I - (1/N)·ones(N,N)`. -/
noncomputable def centerOp (n : ℕ) : MatR :=
  List.zipWith (List.zipWith (· - ·)) (eyeR n) (matScaleR (1 / (n : ℝ)) (onesR n))

noncomputable def colMeanR (x : MatR) : List ℝ :=
  (List.range (matWidth x)).map (fun j => (x.map (fun r => r.getD j 0)).sum / (x.length : ℝ))

/-- `_center_norm(x) = x - x.mean(0)` (`kcca.py` lines 317-319). -/
noncomputable def centerNorm (x : MatR) : MatR :=
  x.map (fun r => (List.range (matWidth x)).map (fun j => r.getD j 0 - (colMeanR x).getD j 0))

/-- `euclidean_distances(X, Y, squared=True)` entry. -/
noncomputable def sqDist (a b : List ℝ) : ℝ := (List.zipWith (fun x y => (x - y) ^ 2) a b).sum

/-- `_make_kernel(X, Y, ktype, constant, degree, sigma)` (`kcca.py` lines
322-341): the configured kernel matrix, double-centered on both sides.
The polynomial `**` on a float exponent is embedded as real `rpow`.  With
an unrecognised `ktype` the Python function falls off the end and returns
`None`; that branch is unreachable after validation and is mapped to the
empty matrix. -/
noncomputable def makeKernel (X Y : MatR) (ktype : String)
    (constant degree sigma : ℝ) : MatR :=
  if ktype = "linear" then
    mmulR (mmulR (centerOp X.length) (mmulR X (transposeR Y))) (centerOp Y.length)
  else if ktype = "poly" then
    mmulR (mmulR (centerOp X.length)
      (matMapR (fun a => a ^ degree) (matMapR (· + constant) (mmulR X (transposeR Y)))))
      (centerOp Y.length)
  else if ktype = "gaussian" then
    mmulR (mmulR (centerOp X.length)
      (matMapR (fun d => Real.exp (-d / (2 * sigma ^ 2)))
        (X.map (fun xa => Y.map (fun yb => sqDist xa yb)))))
      (centerOp Y.length)
  else []

/-- `R = 0.5*np.r_[np.c_[Kx,Ky], np.c_[Kx,Ky]]` (`kcca.py` line 238). -/
noncomputable def Rmat (Kx Ky : MatR) : MatR :=
  matScaleR (1 / 2) (List.zipWith (· ++ ·) Kx Ky ++ List.zipWith (· ++ ·) Kx Ky)

/-- `D = np.r_[np.c_[Kx+reg*Id, Z], np.c_[Z, Ky+reg*Id]]` (line 239). -/
noncomputable def Dmat (Kx Ky : MatR) (reg : ℝ) (n : ℕ) : MatR :=
  List.zipWith (· ++ ·) (matAddR Kx (matScaleR reg (eyeR n))) (zerosR n) ++
    List.zipWith (· ++ ·) (zerosR n) (matAddR Ky (matScaleR reg (eyeR n)))

/-- NumPy lexicographic order on complex values (real part, then
imaginary part), as used by `np.argsort` on a complex array. -/
def lexLeC (a b : ℂ) : Prop := a.re < b.re ∨ (a.re = b.re ∧ a.im ≤ b.im)

open Classical in
noncomputable def insertSorted (v : ℕ → ℂ) (i : ℕ) : List ℕ → List ℕ
  | [] => [i]
  | j :: js => if lexLeC (v j) (v i) then j :: insertSorted v i js else i :: j :: js

/-- `np.argsort(betas)`: the indices of `betas` sorted ascending in the
complex lexicographic order.  (NumPy's default quicksort leaves tie order
unspecified; the embedding resolves ties stably.) -/
noncomputable def argsortC (l : List ℂ) : List ℕ :=
  (List.range l.length).foldl (fun acc i => insertSorted (fun j => l.getD j 0) i acc) []

/-- Column selection `alphas[rows, ind]`. -/
def takeCols (A : List (List ℂ)) (ind : List ℕ) : List (List ℂ) :=
  A.map (fun r => ind.map (fun j => r.getD j 0))

/-- `np.linalg.norm(weight, axis=0)` for a complex matrix: per column,
the square root of the sum of the squared moduli. -/
noncomputable def colNormC (W : List (List ℂ)) (j : ℕ) : ℝ :=
  Real.sqrt ((W.map (fun r => Complex.normSq (r.getD j 0))).sum)

/-- `weight /= np.linalg.norm(weight, axis=0)`: every column divided by
its norm.  (NumPy produces nan/inf on a zero column; Lean's division by
zero yields zero instead — all statements about normalized weights below
therefore assume a nonzero column.) -/
noncomputable def normalizeCols (W : List (List ℂ)) : List (List ℂ) :=
  W.map (fun r => (List.range r.length).map (fun j => r.getD j 0 / (colNormC W j : ℂ)))

/-- `np.real`, entrywise. -/
def reMat (W : List (List ℂ)) : MatR := W.map (List.map Complex.re)

/-- `np.linalg.norm` of a real matrix column (used to state the
normalization property of the *stored* weights). -/
noncomputable def colNormR (W : MatR) (j : ℕ) : ℝ :=
  Real.sqrt ((W.map (fun r => (r.getD j 0) ^ 2)).sum)

/-- The `(R, D)` pencil assembled by `fit` from the centered views
(`kcca.py` lines 222-239). -/
noncomputable def eigInput (c : Cfg) (X0 X1 : MatR) : MatR × MatR :=
  let X := centerNorm X0
  let Y := centerNorm X1
  let Kx := makeKernel X X c.ktype (c.constant.val : ℝ) (c.degree.val : ℝ) (c.sigma.val : ℝ)
  let Ky := makeKernel Y Y c.ktype (c.constant.val : ℝ) (c.degree.val : ℝ) (c.sigma.val : ℝ)
  (Rmat Kx Ky, Dmat Kx Ky ((c.reg.val : ℝ)) X.length)

/-- The complex weight halves selected by `fit` (`kcca.py` lines 242-249):
`betas, alphas = linalg.eig(R, D)`; the top `n_components` eigenvalue
indices (descending); `weight1 = alphas[:N, ind]`, `weight2 =
alphas[N:, ind]`. -/
noncomputable def selW (c : Cfg) (eigO : MatR → MatR → List ℂ × List (List ℂ))
    (X0 X1 : MatR) : List (List ℂ) × List (List ℂ) :=
  let N := (centerNorm X0).length
  let p := eigO (eigInput c X0 X1).1 (eigInput c X0 X1).2
  let ind := ((argsortC p.1).reverse).take c.n_components.toNatVal
  (takeCols (p.2.take N) ind, takeCols (p.2.drop N) ind)

/-- `KCCA.fit(Xs)` (`kcca.py` lines 202-256), as the pair of stored
weight matrices `self.weights_`.  The generalized eigendecomposition
`linalg.eig(R, D)` is external SciPy code, modelled by the oracle `eigO`.
If `decomp` is not `"full"` or `method` is not `"kettenring-like"`, the
branches defining `R` and `D` are skipped and `linalg.eig(R, D)` raises a
name error — the error is deferred to `fit`, not caught at construction.
After selection, each complex weight column is divided by its norm and
only then is the real part taken (`np.real([weight1, weight2])`). -/
noncomputable def fit (c : Cfg) (eigO : MatR → MatR → List ℂ × List (List ℂ))
    (X0 X1 : MatR) : Except PyErr (MatR × MatR) :=
  if c.decomp = "full" then
    if c.method = "kettenring-like" then
      .ok (reMat (normalizeCols (selW c eigO X0 X1).1),
           reMat (normalizeCols (selW c eigO X0 X1).2))
    else .error .unboundRD
  else .error .unboundRD

/-- The fitted state read by `transform`: the stored training views and
the stored weight matrices. -/
structure Fitted where
  X : MatR
  Y : MatR
  weights1 : MatR
  weights2 : MatR

/-- `KCCA.transform(Xs)` (`kcca.py` lines 258-314).  The very first
statement is the guard `if not hasattr(self, "weights_"): raise
NameError("kCCA has not been trained.")` — on an unfit instance the
not-trained error is raised before any computation.  Otherwise each view's
kernel against the stored training data is built and applied to each
retained weight column; the stacked projections are returned
(transposed: one row per sample). -/
noncomputable def transform (c : Cfg) (st : Option Fitted) (X0 X1 : MatR) :
    Except PyErr (MatR × MatR) :=
  match st with
  | none => .error .notTrained
  | some st =>
    let Kxt := makeKernel (centerNorm X0) (centerNorm st.X) c.ktype
      (c.constant.val : ℝ) (c.degree.val : ℝ) (c.sigma.val : ℝ)
    let Kyt := makeKernel (centerNorm X1) (centerNorm st.Y) c.ktype
      (c.constant.val : ℝ) (c.degree.val : ℝ) (c.sigma.val : ℝ)
    .ok (Kxt.map (fun row => (List.range (matWidth st.weights1)).map
          (fun i => dotR row (st.weights1.map (fun r => r.getD i 0)))),
         Kyt.map (fun row => (List.range (matWidth st.weights2)).map
          (fun i => dotR row (st.weights2.map (fun r => r.getD i 0)))))

end KCCA

end Multiview

namespace Multiview
namespace KCCA

theorem PyNum.float_or_int (p : PyNum) : p.isFloat = true ∨ p.isInt = true := by
  cases p <;> simp [PyNum.isFloat, PyNum.isInt]

/-- Claim C5, counterexample: `KCCA(n_components=0)` raises nothing —
the check is `n_components < 0`, so the non-positive value `0` is
accepted; likewise `sigma=0`, a negative float `degree`, and unrecognized
`decomp`/`method` names all pass the constructor. -/
theorem init_accepts_zero_components_cex :
    initCheck { n_components := PyNum.int 0 } = .ok () ∧
    initCheck { sigma := PyNum.int 0 } = .ok () ∧
    initCheck { degree := PyNum.float (-3) } = .ok () ∧
    initCheck { decomp := "bogus", method := "bogus" } = .ok () := by
  refine ⟨?_, ?_, ?_, ?_⟩ <;>
    norm_num [initCheck, PyNum.val, PyNum.isInt, PyNum.isFloat]

/-- Claim C5, amended: the constructor raises exactly when a *negative*
`n_components` (or non-int), an unrecognized `ktype`, a *negative*
`sigma`, a non-float `degree` while `sigma` is not an int (the source
tests `type(self.sigma)` in the `degree` check), an out-of-`[0,1]` or
non-float `reg`, or a *negative* `constant` is supplied.  Zero values
pass, `degree`'s sign is never checked, and `decomp`/`method` are not
validated at construction: with an unrecognized value of either, `fit`
fails (with the name error for the unassembled `R`/`D`), i.e. that error
is deferred to `fit`. -/
theorem init_check_characterization (c : Cfg) :
    (initCheck c = .ok () ↔
      (0 ≤ c.n_components.val ∧ c.n_components.isInt = true) ∧
      (c.ktype = "linear" ∨ c.ktype = "poly" ∨ c.ktype = "gaussian") ∧
      0 ≤ c.sigma.val ∧
      (c.degree.isFloat = true ∨ c.sigma.isInt = true) ∧
      (0 ≤ c.reg.val ∧ c.reg.val ≤ 1 ∧ c.reg.isFloat = true) ∧
      0 ≤ c.constant.val) ∧
    ((¬(c.decomp = "full") ∨ ¬(c.method = "kettenring-like")) →
      ∀ (eigO : MatR → MatR → List ℂ × List (List ℂ)) (X0 X1 : MatR),
        fit c eigO X0 X1 = .error .unboundRD) := by
  constructor
  · have hs := PyNum.float_or_int c.sigma
    have hc := PyNum.float_or_int c.constant
    constructor
    · intro hok
      unfold initCheck at hok
      split_ifs at hok with h1 h2 h3 h4 h5 h6
      push_neg at h1 h2 h3 h4 h5 h6
      exact ⟨h1, by tauto, h3.1, by tauto, h5, h6.1⟩
    · rintro ⟨⟨g1a, g1b⟩, g2, g3, g4, ⟨g5a, g5b, g5c⟩, g6⟩
      unfold initCheck
      rw [if_neg (by rw [not_or]; exact ⟨not_lt.2 g1a, not_not_intro g1b⟩)]
      rw [if_neg (by rcases g2 with h | h | h <;> simp [h])]
      rw [if_neg (by rw [not_or]; exact ⟨not_lt.2 g3, not_not_intro hs⟩)]
      rw [if_neg (not_not_intro g4)]
      rw [if_neg (by rw [not_or, not_or]; exact ⟨not_lt.2 g5a, not_lt.2 g5b, not_not_intro g5c⟩)]
      rw [if_neg (by rw [not_or]; exact ⟨not_lt.2 g6, not_not_intro hc⟩)]
  · intro hd eigO X0 X1
    unfold fit
    rcases hd with hd | hd
    · rw [if_neg hd]
    · by_cases hdec : c.decomp = "full"
      · rw [if_pos hdec, if_neg hd]
      · rw [if_neg hdec]

/-- Witness for `init_check_characterization`: with `decomp = "bogus"`
the constructor does not raise, and `fit` fails with the deferred
unbound-`R`/`D` error. -/
theorem init_check_characterization_witness :
    fit { decomp := "bogus" } (fun _ _ => ([], [])) [[1]] [[1]] = .error .unboundRD :=
  (init_check_characterization { decomp := "bogus" }).2 (Or.inl (by decide))
    (fun _ _ => ([], [])) [[1]] [[1]]

end KCCA

/-- Claim C4, amended: an unfit `KCCA.transform` raises the not-trained
`NameError` immediately for every input (its guard is the method's first
statement); an unfit `KMeans.predict` also fails immediately for every
input, but with a `TypeError` from subscripting the `None` `_centroids`,
not with a not-trained signal. -/
theorem unfit_transform_predict_behavior :
    (∀ (c : KCCA.Cfg) (X0 X1 : KCCA.MatR),
      KCCA.transform c none X0 X1 = .error .notTrained) ∧
    (∀ (k : ℕ) (X0 X1 : MatQ), KMeans.predictE k none X0 X1 = .error .typeError) :=
  ⟨fun _ _ _ => rfl, fun _ _ _ => rfl⟩

/-- Claim C4, counterexample: an unfit `KMeans.predict` raises the
`None`-subscript `TypeError`, which is not the not-trained error. -/
theorem unfit_predict_not_trained_cex :
    KMeans.predictE 2 none [[0]] [[0]] = .error .typeError ∧
    PyErr.typeError ≠ PyErr.notTrained :=
  ⟨rfl, by decide⟩

end Multiview

namespace Multiview

theorem getD_range_map {α : Type} {L j : ℕ} (u : ℕ → α) (d : α) (h : j < L) :
    (((List.range L).map u).getD j d) = u j := by
  rw [List.getD_eq_getElem _ _ (by simpa using h)]
  simp

theorem sum_map_nonneg {α : Type} (l : List α) (f : α → ℝ) (h : ∀ x ∈ l, 0 ≤ f x) :
    0 ≤ (l.map f).sum := by
  induction l with
  | nil => simp
  | cons a l ih =>
    simp only [List.map_cons, List.sum_cons]
    have := h a (by simp)
    have := ih (fun x hx => h x (by simp [hx]))
    linarith

theorem sum_map_add {α : Type} (l : List α) (f g : α → ℝ) :
    (l.map (fun x => f x + g x)).sum = (l.map f).sum + (l.map g).sum := by
  induction l with
  | nil => simp
  | cons a l ih => simp only [List.map_cons, List.sum_cons, ih]; ring

theorem sum_map_div {α : Type} (l : List α) (f : α → ℝ) (c : ℝ) :
    (l.map (fun x => f x / c)).sum = (l.map f).sum / c := by
  induction l with
  | nil => simp
  | cons a l ih => simp only [List.map_cons, List.sum_cons, ih]; ring

theorem sum_map_sq_eq_zero_iff {α : Type} (l : List α) (f : α → ℝ) :
    ((l.map (fun x => (f x) ^ 2)).sum = 0) ↔ ∀ x ∈ l, f x = 0 := by
  induction l with
  | nil => simp
  | cons a l ih =>
    simp only [List.map_cons, List.sum_cons]
    rw [add_eq_zero_iff_of_nonneg (sq_nonneg _)
      (sum_map_nonneg l _ (fun x _ => sq_nonneg (f x)))]
    rw [sq_eq_zero_iff, ih]
    constructor
    · rintro ⟨h0, hrest⟩ x hx
      rcases List.mem_cons.1 hx with rfl | hx
      · exact h0
      · exact hrest x hx
    · intro h
      exact ⟨h a (by simp), fun x hx => h x (by simp [hx])⟩

namespace KCCA

theorem reMat_normalizeCols_colNorm (V : List (List ℂ)) (j : ℕ)
    (hw : ∀ r ∈ V, j < r.length)
    (hnz : ∃ r ∈ V, r.getD j 0 ≠ 0) :
    colNormR (reMat (normalizeCols V)) j ≤ 1 ∧
    (colNormR (reMat (normalizeCols V)) j = 1 ↔ ∀ r ∈ V, (r.getD j 0).im = 0) := by
  set S := (V.map (fun r => Complex.normSq (r.getD j 0))).sum with hSdef
  have hS0 : 0 ≤ S := sum_map_nonneg _ _ (fun r _ => Complex.normSq_nonneg _)
  have hSpos : 0 < S := by
    obtain ⟨r0, hr0, hne⟩ := hnz
    have h1 : Complex.normSq (r0.getD j 0) ≤ S := by
      refine List.single_le_sum (fun x hx => ?_) _ (List.mem_map_of_mem _ hr0)
      simp only [List.mem_map] at hx
      obtain ⟨r, -, rfl⟩ := hx
      exact Complex.normSq_nonneg _
    have h2 : 0 < Complex.normSq (r0.getD j 0) := Complex.normSq_pos.2 hne
    linarith
  have hn : colNormC V j = Real.sqrt S := rfl
  have hnpos : 0 < colNormC V j := by rw [hn]; exact Real.sqrt_pos.2 hSpos
  have hnsq : colNormC V j ^ 2 = S := by rw [hn]; exact Real.sq_sqrt hS0
  set A := (V.map (fun r => ((r.getD j 0).re) ^ 2)).sum with hAdef
  set B := (V.map (fun r => ((r.getD j 0).im) ^ 2)).sum with hBdef
  have hA0 : 0 ≤ A := sum_map_nonneg _ _ (fun r _ => sq_nonneg _)
  have hB0 : 0 ≤ B := sum_map_nonneg _ _ (fun r _ => sq_nonneg _)
  have hAB : A + B = S := by
    rw [hAdef, hBdef, hSdef, ← sum_map_add]
    congr 1
    refine List.map_congr_left (fun r _ => ?_)
    rw [Complex.normSq_apply]
    ring
  have hrow : (reMat (normalizeCols V)).map (fun r => (r.getD j 0) ^ 2) =
      V.map (fun r => ((r.getD j 0).re) ^ 2 / colNormC V j ^ 2) := by
    unfold reMat normalizeCols
    rw [List.map_map, List.map_map]
    refine List.map_congr_left (fun r hr => ?_)
    have hj := hw r hr
    simp only [Function.comp_apply]
    rw [List.map_map]
    rw [getD_range_map (Complex.re ∘ fun j' => r.getD j' 0 / ((colNormC V j' : ℝ) : ℂ)) 0 hj]
    simp only [Function.comp_apply]
    rw [Complex.div_ofReal_re, div_pow]
  have hcol : colNormR (reMat (normalizeCols V)) j = Real.sqrt A / colNormC V j := by
    unfold colNormR
    rw [hrow, sum_map_div, ← hAdef]
    rw [Real.sqrt_div hA0, Real.sqrt_sq (le_of_lt hnpos)]
  constructor
  · rw [hcol]
    rw [div_le_one hnpos]
    calc Real.sqrt A ≤ Real.sqrt S := Real.sqrt_le_sqrt (by linarith)
    _ = colNormC V j := hn.symm
  · rw [hcol, div_eq_one_iff_eq (ne_of_gt hnpos), hn, Real.sqrt_inj hA0 hS0]
    constructor
    · intro hAS
      have hB : B = 0 := by linarith
      rw [hBdef] at hB
      exact (sum_map_sq_eq_zero_iff V (fun r => (r.getD j 0).im)).1 hB
    · intro him
      have hB : B = 0 := by
        rw [hBdef]
        exact (sum_map_sq_eq_zero_iff V (fun r => (r.getD j 0).im)).2 him
      linarith

end KCCA
end Multiview

namespace Multiview
namespace KCCA

theorem argsort_pair_eval : argsortC [(1 : ℂ), 0] = [1, 0] := by
  have h1 : insertSorted (fun j => [(1 : ℂ), 0].getD j 0) 0 [] = [0] := rfl
  have h2 : insertSorted (fun j => [(1 : ℂ), 0].getD j 0) 1 [0] = [1, 0] := by
    unfold insertSorted
    rw [if_neg]
    unfold lexLeC
    simp only [List.getD_cons_zero, List.getD_cons_succ, Complex.one_re, Complex.zero_re,
      Complex.one_im, Complex.zero_im]
    norm_num
  unfold argsortC
  simp only [List.length_cons, List.length_nil, List.range_succ, List.range_zero,
    List.nil_append, List.cons_append, List.foldl_cons, List.foldl_nil]
  rw [h1, h2]

theorem sel_pair_eval :
    selW { n_components := PyNum.int 1 }
      (fun _ _ => ([(1 : ℂ), 0], [[⟨0, 3/5⟩, 0], [⟨4/5, 0⟩, 0]])) [[1]] [[1]] =
      ([[(⟨0, 3/5⟩ : ℂ)]], [[(⟨4/5, 0⟩ : ℂ)]]) := by
  unfold selW
  dsimp only
  rw [argsort_pair_eval]
  norm_num [centerNorm, takeCols, PyNum.toNatVal, List.range_succ]

theorem colNormC_35 : colNormC [[(⟨0, 3/5⟩ : ℂ)]] 0 = 3/5 := by
  unfold colNormC
  simp only [List.map_cons, List.map_nil, List.getD_cons_zero, List.sum_cons,
    List.sum_nil, Complex.normSq_mk]
  rw [show (0 * 0 + 3/5 * (3/5) + 0 : ℝ) = (3/5)^2 by norm_num]
  exact Real.sqrt_sq (by norm_num)

theorem colNormC_45 : colNormC [[(⟨4/5, 0⟩ : ℂ)]] 0 = 4/5 := by
  unfold colNormC
  simp only [List.map_cons, List.map_nil, List.getD_cons_zero, List.sum_cons,
    List.sum_nil, Complex.normSq_mk]
  rw [show (4/5 * (4/5) + 0 * 0 + 0 : ℝ) = (4/5)^2 by norm_num]
  exact Real.sqrt_sq (by norm_num)

theorem fit_pair_eval :
    fit { n_components := PyNum.int 1 }
      (fun _ _ => ([(1 : ℂ), 0], [[⟨0, 3/5⟩, 0], [⟨4/5, 0⟩, 0]])) [[1]] [[1]] =
      .ok ([[0]], [[1]]) := by
  unfold fit
  rw [if_pos rfl, if_pos rfl, sel_pair_eval]
  unfold reMat normalizeCols
  simp only [List.map_cons, List.map_nil, List.length_cons, List.length_nil,
    List.range_succ, List.range_zero, List.nil_append, List.cons_append,
    List.getD_cons_zero, colNormC_35, colNormC_45, Complex.div_ofReal_re]
  norm_num

end KCCA
end Multiview

namespace Multiview
namespace KCCA

/-- Claim C6, amended: for every successful `fit`, each stored weight
column has L2 norm **at most** 1 (given a nonzero selected column, so the
normalization divides by a nonzero norm), with norm exactly 1 **iff** the
selected complex eigenvector column is entirely real.  The source
normalizes the complex columns first and takes `np.real` afterwards, so a
genuinely complex column loses norm — the claim's "norm 1 within floating
tolerance" fails whenever the eigensolver returns a column with
non-negligible imaginary part. -/
theorem kcca_stored_weights_norm (c : Cfg) (eigO : MatR → MatR → List ℂ × List (List ℂ))
    (X0 X1 : MatR) (W1 W2 : MatR) (h : fit c eigO X0 X1 = .ok (W1, W2)) (j : ℕ) :
    ((∀ r ∈ (selW c eigO X0 X1).1, j < r.length) →
      (∃ r ∈ (selW c eigO X0 X1).1, r.getD j 0 ≠ 0) →
      colNormR W1 j ≤ 1 ∧
        (colNormR W1 j = 1 ↔ ∀ r ∈ (selW c eigO X0 X1).1, (r.getD j 0).im = 0)) ∧
    ((∀ r ∈ (selW c eigO X0 X1).2, j < r.length) →
      (∃ r ∈ (selW c eigO X0 X1).2, r.getD j 0 ≠ 0) →
      colNormR W2 j ≤ 1 ∧
        (colNormR W2 j = 1 ↔ ∀ r ∈ (selW c eigO X0 X1).2, (r.getD j 0).im = 0)) := by
  unfold fit at h
  by_cases h1 : c.decomp = "full"
  · rw [if_pos h1] at h
    by_cases h2 : c.method = "kettenring-like"
    · rw [if_pos h2] at h
      simp only [Except.ok.injEq, Prod.mk.injEq] at h
      obtain ⟨hW1, hW2⟩ := h
      constructor
      · intro hw hnz
        rw [← hW1]
        exact reMat_normalizeCols_colNorm _ j hw hnz
      · intro hw hnz
        rw [← hW2]
        exact reMat_normalizeCols_colNorm _ j hw hnz
    · rw [if_neg h2] at h
      exact absurd h (by simp)
  · rw [if_neg h1] at h
    exact absurd h (by simp)

/-- Witness for `kcca_stored_weights_norm` at a concrete eigensolver
outcome. -/
theorem kcca_stored_weights_norm_witness :
    colNormR [[(0:ℝ)]] 0 ≤ 1 ∧
      (colNormR [[(0:ℝ)]] 0 = 1 ↔
        ∀ r ∈ (selW { n_components := PyNum.int 1 }
          (fun _ _ => ([(1 : ℂ), 0], [[⟨0, 3/5⟩, 0], [⟨4/5, 0⟩, 0]])) [[1]] [[1]]).1,
          (r.getD 0 0).im = 0) :=
  (kcca_stored_weights_norm { n_components := PyNum.int 1 }
      (fun _ _ => ([(1 : ℂ), 0], [[⟨0, 3/5⟩, 0], [⟨4/5, 0⟩, 0]])) [[1]] [[1]]
      [[0]] [[1]] fit_pair_eval 0).1
    (by rw [sel_pair_eval]; intro r hr; simp at hr; subst hr; simp)
    (by rw [sel_pair_eval]
        refine ⟨[(⟨0, 3/5⟩ : ℂ)], by simp, ?_⟩
        simp only [List.getD_cons_zero]
        intro hcontra
        have := congrArg Complex.im hcontra
        simp at this)

/-- Claim C6, counterexample: a successful fit whose selected eigenvector
column `[3i/5; 4/5]` is a legitimate unit-norm eigensolver output; the
view-1 half `[3i/5]` is normalized to `[i]` *before* `np.real`, so the
stored view-1 weight column is `[0]` with L2 norm 0, not 1. -/
theorem kcca_weights_not_unit_cex :
    fit { n_components := PyNum.int 1 }
      (fun _ _ => ([(1 : ℂ), 0], [[⟨0, 3/5⟩, 0], [⟨4/5, 0⟩, 0]])) [[1]] [[1]] =
      .ok ([[0]], [[1]]) ∧
    colNormR [[(0:ℝ)]] 0 = 0 ∧
    colNormR [[(1:ℝ)]] 0 = 1 ∧
    (0 : ℝ) ≠ 1 := by
  refine ⟨fit_pair_eval, ?_, ?_, by norm_num⟩
  · unfold colNormR
    simp
  · unfold colNormR
    simp

end KCCA
end Multiview
